import Mathlib

/-!
Verification of the path-rewriting and package-assembly logic of the
helix-importer JCR package builder (`src/js/shared/jcr.js`).

JavaScript strings are modelled as lists of characters (`Str`), so that the
string operations the source uses (`split`, `join`, `startsWith`, `replace`,
template-literal concatenation) become ordinary list operations.  The browser
`URL` object is modelled by a structure holding the fields the source reads
(`origin`, `pathname`, `searchParams`), together with a small parser for the
plain URLs the tool handles.
-/

/-- JavaScript strings, modelled as lists of characters. -/
abbrev Str := List Char

/-- Conversion from Lean string literals to the `Str` model. -/
def str (s : String) : Str := s.toList

/-- The single-quote character (written via its code point). -/
def quoteCh : Char := Char.ofNat 39

/-- The slash character. -/
def slash : Char := '/'

/-- JS `String.prototype.split(sep)` for a one-character separator:
splits into the (possibly empty) chunks between occurrences of `sep`. -/
def splitOnChar (sep : Char) : Str → List Str
  | [] => [[]]
  | c :: rest =>
    let r := splitOnChar sep rest
    if c = sep then [] :: r
    else (c :: r.headD []) :: r.tail

/-- JS `Array.prototype.join(sep)` for a one-character separator. -/
def joinChar (sep : Char) : List Str → Str
  | [] => []
  | [x] => x
  | x :: xs => x ++ sep :: joinChar sep xs

/-- JS `String.prototype.includes(c)` for a single character. -/
def includesChar (c : Char) (s : Str) : Bool := s.contains c

/-- JS truthiness of a string value: the empty string is falsy. -/
def truthyStr (s : Str) : Bool := !s.isEmpty

/-- The browser `URL` object, restricted to the fields the source reads:
`origin`, `pathname` and `searchParams` (an ordered key/value list). -/
structure URLm where
  origin : Str
  pathname : Str
  params : List (Str × Str)
  deriving Repr, DecidableEq

/-- Splits a raw string at the first occurrence of a separator character,
returning the part before and the part after (or `none` if absent). -/
def breakAtChar (sep : Char) : Str → Option (Str × Str)
  | [] => none
  | c :: rest =>
    if c = sep then some ([], rest)
    else match breakAtChar sep rest with
      | some (a, b) => some (c :: a, b)
      | none => none

/-- Models the browser `URL` constructor for the plain absolute URLs this
tool handles (`scheme://host/path?k=v&…`, no encoding, no fragments):
the origin is scheme plus host, the pathname is the slash-led remainder
before `?`, and the search parameters are the `&`-separated `k=v` pairs. -/
def parseUrl (s : Str) : URLm :=
  match breakAtChar '?' s with
  | some (beforeQ, afterQ) =>
    { origin := urlOrigin beforeQ
      pathname := urlPath beforeQ
      params := (splitOnChar '&' afterQ).filter (fun p => p ≠ []) |>.map fun p =>
        match breakAtChar '=' p with
        | some (k, v) => (k, v)
        | none => (p, []) }
  | none =>
    { origin := urlOrigin s, pathname := urlPath s, params := [] }
where
  /-- Index just past `scheme://` (the character count of `scheme://`). -/
  afterScheme (t : Str) : Nat :=
    match breakAtChar ':' t with
    | some (sch, rest) => sch.length + 3 + 0 * rest.length
    | none => 0
  /-- scheme plus `//` plus host. -/
  urlOrigin (t : Str) : Str :=
    let n := afterScheme t
    t.take n ++ (t.drop n).takeWhile (fun c => c ≠ slash)
  /-- the slash-led part after the host. -/
  urlPath (t : Str) : Str :=
    let n := afterScheme t
    (t.drop n).dropWhile (fun c => c ≠ slash)

/-- `CUSTOM_SITE_NAME` of the source: `undefined` by default; the source
allows overriding it with a string, which participates in a JS truthiness
test, so an overriding empty string is still falsy. -/
def CUSTOM_SITE_NAME_DEFAULT : Option Str := none

/-- `getSiteName` (jcr.js line 68): the override constant when configured
(and truthy), otherwise the second path segment of the project URL.  The
configurable constant is passed explicitly; JS `undefined` from an
out-of-range index is modelled as the empty segment. -/
def getSiteName (custom : Option Str) (projectUrl : Str) : Str :=
  match custom with
  | some s => if truthyStr s then s else siteFromUrl projectUrl
  | none => siteFromUrl projectUrl
where
  siteFromUrl (projectUrl : Str) : Str :=
    ((splitOnChar slash (parseUrl projectUrl).pathname).getD 2 [])

/-- JS `Array.prototype.splice(i, 1, x)`: replace the element at index `i`. -/
def spliceReplace (i : Nat) (x : Str) (l : List Str) : List Str :=
  l.take i ++ [x] ++ l.drop (i + 1)

/-- `getJcrPagePath` (jcr.js line 85): if the source path starts with
`/content/`, replace its 2nd slash-delimited token with the site name;
otherwise prefix `/content/<siteName>`. -/
def getJcrPagePath (custom : Option Str) (path : Str) (projectUrl : Str) : Str :=
  let siteName := getSiteName custom projectUrl
  if (str "/content/").isPrefixOf path then
    joinChar slash (spliceReplace 2 siteName (splitOnChar slash path))
  else
    str "/content/" ++ siteName ++ path

/-- The `extension` local of `getJcrAssetPath` (jcr.js line 100): a dot plus
the last chunk of the dot-split of the whole pathname (JS
`pathname.split('.').pop()`), or empty if the pathname has no dot. -/
def jcrAssetExt (pathname : Str) : Str :=
  if includesChar '.' pathname then
    '.' :: (splitOnChar '.' pathname).getLastD []
  else []

/-- JS `String.prototype.replace(pat, '')` for a string pattern: removes the
first occurrence of `pat` (a no-op when there is none; removing the empty
pattern is also a no-op). -/
def removeFirst (pat : Str) (s : Str) : Str :=
  if pat = [] then s
  else match go s with
    | some r => r
    | none => s
where
  /-- Remove `pat` at its first occurrence, or `none` if it does not occur. -/
  go : Str → Option Str
    | [] => none
    | c :: rest =>
      if pat.isPrefixOf (c :: rest) then some ((c :: rest).drop pat.length)
      else match go rest with
        | some r => some (c :: r)
        | none => none

/-- The `path` local of `getJcrAssetPath` (jcr.js line 101): the pathname
with the first occurrence of the extension removed. -/
def jcrAssetBase (pathname : Str) : Str :=
  removeFirst (jcrAssetExt pathname) pathname

/-- The query-parameter suffix of `getJcrAssetPath` (jcr.js line 108):
`_<key><value>` per parameter key in iteration order, concatenated. -/
def querySuffix (params : List (Str × Str)) : Str :=
  (params.map (fun kv => '_' :: (kv.1 ++ paramGet params kv.1))).flatten
where
  /-- `searchParams.get(key)`: the first value recorded for `key`. -/
  paramGet (params : List (Str × Str)) (key : Str) : Str :=
    match params.find? (fun kv => kv.1 = key) with
    | some kv => kv.2
    | none => []

/-- `getJcrAssetPath` (jcr.js line 96): split the pathname into base and
extension; if the base starts with `/content/dam/`, replace its 3rd token
with the site name and reattach the extension, otherwise build
`/content/dam/<siteName><base><querySuffix><extension>`. -/
def getJcrAssetPath (custom : Option Str) (assetUrl : URLm) (projectUrl : Str) : Str :=
  let siteName := getSiteName custom projectUrl
  let extension := jcrAssetExt assetUrl.pathname
  let path := jcrAssetBase assetUrl.pathname
  if (str "/content/dam/").isPrefixOf path then
    joinChar slash (spliceReplace 3 siteName (splitOnChar slash path)) ++ extension
  else
    let suffix := querySuffix assetUrl.params
    str "/content/dam/" ++ siteName ++ path ++ suffix ++ extension

/-! ### Asset resolver (`getAsset`, `fetchAssetData`, `getProcessedFileRef`) -/

/-- `ADD_ASSET_TO_PACKAGE` (jcr.js line 22): defaults to `true`. -/
def ADD_ASSET_TO_PACKAGE : Bool := true

/-- The JavaScript runtime error raised by reading a property of
`null`/`undefined` or destructuring `undefined`. -/
inductive JsError where
  | typeError
  deriving Repr, DecidableEq

/-- The asset descriptor produced by `getAsset` (jcr.js line 199); `blob`
and `mimeType` start out `undefined` and are filled in by
`fetchAssetData`.  A blob is modelled by its byte content as a string. -/
structure Asset where
  fileReference : Str
  processedFileRef : Str
  jcrPath : Option Str
  url : Option URLm
  add : Bool
  blob : Option Str
  mimeType : Option Str
  deriving Repr, DecidableEq

/-- `getMimeTypeFromExtension` (jcr.js line 112): the static extension to
mime-type lookup table; unknown extensions yield `undefined`. -/
def getMimeTypeFromExtension (extension : Str) : Option Str :=
  if extension = str "html" then some (str "text/html")
  else if extension = str "css" then some (str "text/css")
  else if extension = str "js" then some (str "application/javascript")
  else if extension = str "png" then some (str "image/png")
  else if extension = str "jpg" then some (str "image/jpeg")
  else if extension = str "gif" then some (str "image/gif")
  else none

/-- JS `p.substring(0, p.lastIndexOf(c))`: everything before the last
occurrence of `c`, or the empty string when `c` does not occur
(`substring(0, -1)` is the empty string). -/
def beforeLastChar (c : Char) (p : Str) : Str :=
  ((p.reverse.dropWhile (fun d => d ≠ c)).drop 1).reverse

/-- Body of `getAsset` for a present (non-`undefined`) reference string. -/
def getAssetStr (custom : Option Str) (ref : Str)
    (pageUrl : Str) (projectUrl : Str) : Option Asset :=
  if ref = [] then none
  else
  let host := (parseUrl pageUrl).origin
  let pagePath := (parseUrl pageUrl).pathname
  if (str "http").isPrefixOf ref then
    let url := parseUrl ref
    if url.origin = host then
      let jcrPath := getJcrAssetPath custom url projectUrl
      some { fileReference := ref, processedFileRef := jcrPath,
             jcrPath := some jcrPath, url := some url, add := true,
             blob := none, mimeType := none }
    else
      some { fileReference := ref, processedFileRef := ref,
             jcrPath := none, url := some url, add := false,
             blob := none, mimeType := none }
  else if (str "/content/dam/").isPrefixOf ref then
    let url := parseUrl (host ++ ref)
    let jcrPath := getJcrAssetPath custom url projectUrl
    some { fileReference := ref, processedFileRef := jcrPath,
           jcrPath := some jcrPath, url := some url,
           add := ADD_ASSET_TO_PACKAGE, blob := none, mimeType := none }
  else if (str "/").isPrefixOf ref then
    let url := parseUrl (host ++ ref)
    let jcrPath := getJcrAssetPath custom url projectUrl
    some { fileReference := ref, processedFileRef := jcrPath,
           jcrPath := some jcrPath, url := some url, add := true,
           blob := none, mimeType := none }
  else if (str "./").isPrefixOf ref then
    let parentPath := beforeLastChar slash pagePath
    let url := parseUrl (host ++ parentPath ++ ref.drop 1)
    let jcrPath := getJcrAssetPath custom url projectUrl
    some { fileReference := ref, processedFileRef := jcrPath,
           jcrPath := some jcrPath, url := some url, add := true,
           blob := none, mimeType := none }
  else
    some { fileReference := ref, processedFileRef := ref,
           jcrPath := none, url := none, add := false,
           blob := none, mimeType := none }

/-- `getAsset` (jcr.js line 159): classifies a raw reference string into a
resolved asset descriptor.  An empty or missing (`undefined`) reference is
falsy and yields `null` (modelled as `none`). -/
def getAsset (custom : Option Str) (fileReference : Option Str)
    (pageUrl : Str) (projectUrl : Str) : Option Asset :=
  match fileReference with
  | none => none
  | some ref => getAssetStr custom ref pageUrl projectUrl

/-- `getProcessedFileRef` (jcr.js line 208): unconditionally reads
`processedFileRef` off `getAsset`'s result, so a `null` result (empty or
missing reference) raises a `TypeError`. -/
def getProcessedFileRef (custom : Option Str) (fileReference : Option Str)
    (pageUrl : Str) (projectUrl : Str) : Except JsError Str :=
  match getAsset custom fileReference pageUrl projectUrl with
  | none => Except.error JsError.typeError
  | some asset => Except.ok asset.processedFileRef

/-- Outcome of the network fetch of one asset URL: a successful response
(with its optional `content-type` header and body), a non-success HTTP
status, or a network failure (rejected fetch promise). -/
inductive FetchOutcome where
  | success (contentType : Option Str) (body : Str)
  | httpError (status : Nat)
  | networkError
  deriving Repr, DecidableEq

/-- JS `a || b` for a string-or-null left operand: the empty string and
`null`/`undefined` are falsy. -/
def jsOrStr (a : Option Str) (b : Option Str) : Option Str :=
  match a with
  | some v => if v = [] then b else some v
  | none => b

/-- `fetchAssetData` (jcr.js line 139), with the network's behaviour
supplied as a `FetchOutcome`.  The `then` handler maps a non-success
status to `{blob: null, mimeType: null}`; the `catch` handler only logs, so
it resolves to `undefined`, and the subsequent destructuring of
`{blob, mimeType}` then raises a `TypeError`.  On success the mime type
falls back to the static lookup table keyed by the last dot-chunk of the
URL pathname. -/
def fetchAssetDataP (asset : Asset) (outcome : FetchOutcome) :
    Except JsError Asset :=
  match asset.url with
  | none => Except.ok asset
  | some u =>
    let chainResult : Option (Option Str × Option Str) :=
      match outcome with
      | FetchOutcome.success contentType body => some (some body, contentType)
      | FetchOutcome.httpError _ => some (none, none)
      | FetchOutcome.networkError => none
    match chainResult with
    | none => Except.error JsError.typeError
    | some (blob, mimeType) =>
      let fb := getMimeTypeFromExtension ((splitOnChar '.' u.pathname).getLastD [])
      Except.ok { asset with blob := blob, mimeType := jsOrStr mimeType fb }

/-- `getResourcePaths` (jcr.js line 236): the truthy `jcrPath`s of the given
resources; for assets only those with `add` set.  JS truthiness makes an
empty-string path drop out as well. -/
def getResourcePathsAssets (resources : List Asset) : List Str :=
  (resources.filterMap fun r =>
    if r.add then
      match r.jcrPath with
      | some p => if p = [] then none else some p
      | none => none
    else none)

/-! ### Page model and the instrumented build pipeline

The page markup handed to the browser's `DOMParser` is modelled
structurally by what the source extracts from it: the attribute names of
the `jcr:content` node, the tag names of its direct children, and the
values of the `fileReference` attributes in document order.  Parsing is an
external browser builtin, so `parseFromString` is modelled as the identity
on this structured value; every invocation is recorded as a parse event so
that re-parsing is observable.  Likewise every `getAsset` call is recorded
as a resolve event and every network fetch as a fetch event.  `await` of
the sequentially-awaited promises is modelled by sequential state passing.
-/

structure PageDoc where
  contentProps : List Str
  contentChildren : List Str
  refs : List Str
  deriving Repr, DecidableEq

/-- An input page as handed to `createJcrPackage`: source path, raw markup
(structured), and source URL. -/
structure InPage where
  path : Str
  data : PageDoc
  url : Str
  deriving Repr, DecidableEq

/-- The resolved page record built by `getJcrPages` (jcr.js line 322). -/
structure JcrPage where
  path : Str
  sourceXml : PageDoc
  pageProperties : List Str
  pageContentChildren : List Str
  processedXml : PageDoc
  jcrPath : Str
  contentXmlPath : Str
  url : Str
  deriving Repr, DecidableEq

/-- One archive or filesystem write performed by the package assembler. -/
inductive WriteEvt where
  | zipEntry (path : Str)
  | fsFile (path : Str)
  deriving Repr, DecidableEq

/-- The process-wide mutable state of jcr.js (the two cache arrays),
together with the instrumentation logs and counters used to observe
caching, parsing, resolution, fetching and writing. -/
structure BuildSt where
  jcrPagesCache : List JcrPage
  jcrAssetsCache : List Asset
  parseLog : List Str
  resolveLog : List Str
  fetchLog : List Str
  writes : List WriteEvt
  pagesComputes : Nat
  assetScans : Nat
  deriving Repr, DecidableEq

/-- The state at process start: empty caches, no events. -/
def initSt : BuildSt :=
  { jcrPagesCache := [], jcrAssetsCache := [], parseLog := [],
    resolveLog := [], fetchLog := [], writes := [],
    pagesComputes := 0, assetScans := 0 }

/-- A build computation: state in, fallible result and state out (state is
kept on error so that the trace up to the failure stays observable). -/
def BuildM (α : Type) : Type := BuildSt → Except JsError α × BuildSt

def pureB {α : Type} (a : α) : BuildM α := fun st => (Except.ok a, st)

def bindB {α β : Type} (m : BuildM α) (f : α → BuildM β) : BuildM β := fun st =>
  match m st with
  | (Except.ok a, st') => f a st'
  | (Except.error e, st') => (Except.error e, st')

def throwB {α : Type} : BuildM α := fun st => (Except.error JsError.typeError, st)

/-- Record one `DOMParser.parseFromString` invocation, keyed by the URL of
the page whose markup is parsed. -/
def recordParse (key : Str) : BuildM Unit := fun st =>
  (Except.ok (), { st with parseLog := st.parseLog ++ [key] })

/-- `getAsset` with its invocation recorded as a resolve event. -/
def getAssetB (custom : Option Str) (fileReference : Option Str)
    (pageUrl : Str) (projectUrl : Str) : BuildM (Option Asset) := fun st =>
  (Except.ok (getAsset custom fileReference pageUrl projectUrl),
   { st with resolveLog := st.resolveLog ++ [fileReference.getD []] })

/-- `getProcessedFileRef` on top of the instrumented `getAsset`. -/
def getProcessedFileRefB (custom : Option Str) (fileReference : Option Str)
    (pageUrl : Str) (projectUrl : Str) : BuildM Str :=
  bindB (getAssetB custom fileReference pageUrl projectUrl) fun assetOpt =>
    match assetOpt with
    | none => throwB
    | some asset => pureB asset.processedFileRef

/-- The serialized query string of a URL (for the fetch log key). -/
def urlHref (u : URLm) : Str :=
  u.origin ++ u.pathname ++
    match u.params with
    | [] => []
    | ps => '?' :: joinChar '&' (ps.map fun kv => kv.1 ++ '=' :: kv.2)

/-- `fetchAssetData` with the network modelled by `oracle` and the fetch
recorded (only assets with a URL are fetched; jcr.js line 140). -/
def fetchAssetDataB (oracle : Str → FetchOutcome) (asset : Asset) :
    BuildM Asset := fun st =>
  match asset.url with
  | none => (Except.ok asset, st)
  | some u =>
    let st' := { st with fetchLog := st.fetchLog ++ [urlHref u] }
    (fetchAssetDataP asset (oracle (urlHref u)), st')

/-- One `fileReference` attribute rewrite step of `getProcessedJcr`
(jcr.js lines 278–292): compute the processed reference; for an external
(`http…`) reference re-resolve the asset and, when it is not included,
fetch it for its mime type. -/
def processRef (custom : Option Str) (oracle : Str → FetchOutcome)
    (pageUrl projectUrl : Str) (ref : Str) : BuildM Str :=
  bindB (getProcessedFileRefB custom (some ref) pageUrl projectUrl) fun processed =>
  if (str "http").isPrefixOf ref then
    bindB (getAssetB custom (some ref) pageUrl projectUrl) fun assetOpt =>
      match assetOpt with
      | none => throwB
      | some asset =>
        if asset.add then pureB processed
        else bindB (fetchAssetDataB oracle asset) fun _ => pureB processed
  else pureB processed

def mapB {α β : Type} (f : α → BuildM β) : List α → BuildM (List β)
  | [] => pureB []
  | x :: xs => bindB (f x) fun y => bindB (mapB f xs) fun ys => pureB (y :: ys)

/-- `getProcessedJcr` (jcr.js line 273): parse the page markup, rewrite
every `fileReference` attribute, serialize back. -/
def getProcessedJcrB (custom : Option Str) (oracle : Str → FetchOutcome)
    (xml : PageDoc) (pageUrl projectUrl : Str) : BuildM PageDoc :=
  bindB (recordParse pageUrl) fun _ =>
  bindB (mapB (processRef custom oracle pageUrl projectUrl) xml.refs) fun newRefs =>
  pureB { xml with refs := newRefs }

/-- `getPageProperties` (jcr.js line 298): parses and returns the
`jcr:content` attribute names. -/
def getPagePropertiesB (xml : PageDoc) (pageUrl : Str) : BuildM (List Str) :=
  bindB (recordParse pageUrl) fun _ => pureB xml.contentProps

/-- `getPageContentChildren` (jcr.js line 309): parses and returns the
`jcr:content` child tag names. -/
def getPageContentChildrenB (xml : PageDoc) (pageUrl : Str) : BuildM (List Str) :=
  bindB (recordParse pageUrl) fun _ => pureB xml.contentChildren

/-- The object literal built per page by `getJcrPages` (jcr.js line 322). -/
def buildJcrPage (custom : Option Str) (oracle : Str → FetchOutcome)
    (projectUrl : Str) (page : InPage) : BuildM JcrPage :=
  bindB (getPagePropertiesB page.data page.url) fun props =>
  bindB (getPageContentChildrenB page.data page.url) fun children =>
  bindB (getProcessedJcrB custom oracle page.data page.url projectUrl) fun processed =>
  pureB { path := page.path, sourceXml := page.data, pageProperties := props,
          pageContentChildren := children, processedXml := processed,
          jcrPath := getJcrPagePath custom page.path projectUrl,
          contentXmlPath :=
            str "jcr_root" ++ getJcrPagePath custom page.path projectUrl ++
              str "/.content.xml",
          url := page.url }

/-- `getJcrPages` (jcr.js line 320): memoized on the page cache — the page
records are computed only when the cache is empty. -/
def getJcrPagesB (custom : Option Str) (oracle : Str → FetchOutcome)
    (pages : List InPage) (projectUrl : Str) : BuildM (List JcrPage) := fun st =>
  if st.jcrPagesCache.isEmpty then
    (bindB (fun st1 => (Except.ok (),
        { st1 with pagesComputes := st1.pagesComputes + 1 }))
      fun _ =>
     bindB (mapB (buildJcrPage custom oracle projectUrl) pages) fun ps =>
     fun st2 => (Except.ok ps, { st2 with jcrPagesCache := ps })) st
  else (Except.ok st.jcrPagesCache, st)

/-- The dedup-gated push of the asset scan (jcr.js line 349): push the
asset when it exists, is marked for inclusion, and no already-collected
asset has the same `jcrPath`. -/
def scanPush (acc : List Asset) (assetOpt : Option Asset) : List Asset :=
  match assetOpt with
  | some asset =>
    if asset.add &&
        (acc.find? (fun a => decide (a.jcrPath = asset.jcrPath))).isNone then
      acc ++ [asset]
    else acc
  | none => acc

/-- Inner loop of the asset scan over one page's `fileReference`s. -/
def scanRefsB (custom : Option Str) (pageUrl projectUrl : Str)
    (acc : List Asset) : List Str → BuildM (List Asset)
  | [] => pureB acc
  | ref :: rest =>
    bindB (getAssetB custom (some ref) pageUrl projectUrl) fun assetOpt =>
      scanRefsB custom pageUrl projectUrl (scanPush acc assetOpt) rest

/-- Outer loop of the asset scan (jcr.js lines 339–353): parse each page's
source markup and resolve every reference on it. -/
def scanPagesB (custom : Option Str) (projectUrl : Str)
    (acc : List Asset) : List JcrPage → BuildM (List Asset)
  | [] => pureB acc
  | p :: ps =>
    bindB (recordParse p.url) fun _ =>
    bindB (scanRefsB custom p.url projectUrl acc p.sourceXml.refs) fun acc' =>
    scanPagesB custom projectUrl acc' ps

/-- `getJcrAssets` (jcr.js line 336): memoized on the asset cache — the
scan runs only when the cache is empty (so it runs again if a first scan
found no assets). -/
def getJcrAssetsB (custom : Option Str) (oracle : Str → FetchOutcome)
    (pages : List InPage) (projectUrl : Str) : BuildM (List Asset) := fun st =>
  if st.jcrAssetsCache.isEmpty then
    (bindB (fun st1 => (Except.ok (),
        { st1 with assetScans := st1.assetScans + 1 }))
      fun _ =>
     bindB (getJcrPagesB custom oracle pages projectUrl) fun jp =>
     bindB (scanPagesB custom projectUrl [] jp) fun as =>
     fun st2 => (Except.ok as, { st2 with jcrAssetsCache := as })) st
  else (Except.ok st.jcrAssetsCache, st)

/-- `getJcrAssetPaths` (jcr.js line 367). -/
def getJcrAssetPathsB (custom : Option Str) (oracle : Str → FetchOutcome)
    (pages : List InPage) (projectUrl : Str) : BuildM (List Str) :=
  bindB (getJcrAssetsB custom oracle pages projectUrl) fun as =>
  pureB (getResourcePathsAssets as)

/-- `getResourcePaths` for pages (jcr.js line 236, `isAsset = false`):
the truthy `jcrPath`s. -/
def getResourcePathsPages (resources : List JcrPage) : List Str :=
  resources.filterMap fun p => if p.jcrPath = [] then none else some p.jcrPath

/-! ### Ancestor scaffold builder -/

/-- The successive values of `ancestorPath` in the loop of
`getEmptyAncestorPages` (jcr.js lines 384–396): starting from `/content`,
extend by one slash-joined segment per iteration, for the segments with
index `2 … length-2` of the page path. -/
def ancestorChainAux (acc : Str) : List Str → List Str
  | [] => []
  | seg :: rest =>
    let acc' := acc ++ slash :: seg
    acc' :: ancestorChainAux acc' rest

def ancestorChain (pagePath : Str) : List Str :=
  ancestorChainAux (str "/content") (((splitOnChar slash pagePath).drop 2).dropLast)

/-- A synthetic empty ancestor node descriptor.  Its `processedXml` is a
fixed boilerplate markup constant whose content no claim depends on, so it
is not carried here. -/
structure AncestorPage where
  jcrPath : Str
  contentXmlPath : Str
  deriving Repr, DecidableEq

/-- `getEmptyAncestorPages` (jcr.js line 374): for every page path, emit a
descriptor for each ancestor-chain path that is not itself among the
resolved page paths.  The emission check consults only the resolved-page
path list `jcrPaths`, not what was already emitted. -/
def getEmptyAncestorPages (pages : List JcrPage) : List AncestorPage :=
  let jcrPaths := pages.map (fun p => p.jcrPath)
  jcrPaths.flatMap fun pagePath =>
    ((ancestorChain pagePath).filter fun a => !(jcrPaths.contains a)).map fun a =>
      { jcrPath := a, contentXmlPath := str "jcr_root" ++ a ++ str "/.content.xml" }

/-! ### Filter document builder (`getFilterXml`, jcr.js line 402) -/

/-- A single-quote character as a string piece (the XML attribute
delimiter used throughout the generated filter document). -/
def qs : Str := [quoteCh]

/-- One property-level include line of a page's filter block. -/
def includeElem (jcrPath prop : Str) : Str :=
  (str "<include pattern=" ++ qs ++ (jcrPath ++ str "/jcr:content/" ++ prop) ++ qs) ++
    (str " matchProperties=" ++ qs ++ str "true" ++ qs) ++ str "/>"

/-- One child-subtree filter line of a page's filter block. -/
def childFilterElem (jcrPath child : Str) : Str :=
  (str "<filter root=" ++ qs ++ (jcrPath ++ str "/jcr:content/" ++ child) ++ qs) ++
    str "/>"

/-- The text appended for one page by the `reduce` at jcr.js line 405. -/
def pageFilterBlock (p : JcrPage) : Str :=
  (str "<filter root=" ++ qs ++ (p.jcrPath ++ str "/jcr:content") ++ qs) ++
    str ">\n" ++
  joinChar '\n' (p.pageProperties.map (includeElem p.jcrPath)) ++
  str "\n</filter>\n" ++
  joinChar '\n' (p.pageContentChildren.map (childFilterElem p.jcrPath)) ++
  str "\n"

def pageFilters (ps : List JcrPage) : Str :=
  ps.foldl (fun acc p => acc ++ pageFilterBlock p) []

/-- The text appended for one included asset path by the `reduce` at
jcr.js line 412. -/
def assetFilterElem (path : Str) : Str :=
  (str "<filter root=" ++ qs ++ path ++ qs) ++ str "/>\n"

def assetFilters (paths : List Str) : Str :=
  paths.foldl (fun acc p => acc ++ assetFilterElem p) []

/-- The fixed template text around the two interpolations of the filter
document (jcr.js line 414). -/
def filterHeader : Str :=
  (str "<?xml version=" ++ qs ++ str "1.0" ++ qs) ++
  (str " encoding=" ++ qs ++ str "UTF-8" ++ qs) ++
  (str "?>\n    <workspaceFilter version=" ++ qs ++ str "1.0" ++ qs) ++
  str ">\n      "

def filterMiddle : Str := str "\n      "

def filterFooter : Str := str "\n    </workspaceFilter>"

/-- The full generated filter document for the given resolved pages and
included asset paths. -/
def buildFilterXml (ps : List JcrPage) (assetPaths : List Str) : Str :=
  filterHeader ++ pageFilters ps ++ filterMiddle ++ assetFilters assetPaths ++
    filterFooter

/-- `getFilterXml` (jcr.js line 402): pages from the cache, asset paths via
`getJcrAssetPaths`, then the document text. -/
def getFilterXmlB (custom : Option Str) (oracle : Str → FetchOutcome)
    (pages : List InPage) (projectUrl : Str) : BuildM Str :=
  bindB (getJcrPagesB custom oracle pages projectUrl) fun jp =>
  bindB (getJcrAssetPathsB custom oracle pages projectUrl) fun ap =>
  pureB (buildFilterXml jp ap)

/-! ### Package assembler (`createJcrPackage`, jcr.js line 435) -/

/-- `getPackageName` (jcr.js line 76): `<siteName>_<lastPathSegment>` for a
single-page build, else the site name. -/
def getPackageName (custom : Option Str) (pages : List InPage)
    (projectUrl : Str) : Str :=
  let siteName := getSiteName custom projectUrl
  match pages with
  | [p] => siteName ++ '_' :: (splitOnChar slash p.path).getLastD []
  | _ => siteName

/-- Record one archive write and one filesystem write for the same
artifact (the `zip.file` / `saveFile` pair used throughout). -/
def writePairB (pfx : Str) (path : Str) : BuildM Unit := fun st =>
  (Except.ok (),
   { st with writes := st.writes ++
      [WriteEvt.zipEntry path, WriteEvt.fsFile (pfx ++ slash :: path)] })

/-- `addPage` (jcr.js line 231): write the page descriptor into the
archive and the mirrored filesystem tree. -/
def addPageB (pfx : Str) (contentXmlPath : Str) : BuildM Unit :=
  writePairB pfx contentXmlPath

/-- `addAsset` (jcr.js line 213): fetch the asset bytes, then write its
descriptor and its original rendition (JS stringifies an `undefined`
`jcrPath` into the path). -/
def addAssetB (oracle : Str → FetchOutcome) (pfx : Str) (asset : Asset) :
    BuildM Unit :=
  bindB (fetchAssetDataB oracle asset) fun _ =>
  let jp := match asset.jcrPath with
    | some p => p
    | none => str "undefined"
  bindB (writePairB pfx (str "jcr_root" ++ jp ++ str "/.content.xml")) fun _ =>
  writePairB pfx (str "jcr_root" ++ jp ++ str "/_jcr_content/renditions/original")

def forEachB {α : Type} (f : α → BuildM Unit) : List α → BuildM Unit
  | [] => pureB ()
  | x :: xs => bindB (f x) fun _ => forEachB f xs

/-- `init` (jcr.js line 28): reset both caches. -/
def initB : BuildM Unit := fun st =>
  (Except.ok (), { st with jcrPagesCache := [], jcrAssetsCache := [] })

/-- `createJcrPackage` (jcr.js line 435): no-op for zero pages; otherwise
reset the caches, add pages, ancestor scaffold nodes and assets, write the
filter and properties documents, and persist the final archive blob. -/
def createJcrPackageB (custom : Option Str) (oracle : Str → FetchOutcome)
    (pages : List InPage) (projectUrl : Str) : BuildM Unit :=
  if pages.isEmpty then pureB () else
  bindB initB fun _ =>
  bindB (getJcrPagesB custom oracle pages projectUrl) fun jp =>
  bindB (forEachB (fun p => addPageB (str "jcr") p.contentXmlPath) jp) fun _ =>
  bindB (forEachB (fun a => addPageB (str "jcr") a.contentXmlPath)
          (getEmptyAncestorPages jp)) fun _ =>
  bindB (getJcrAssetsB custom oracle pages projectUrl) fun as =>
  bindB (forEachB (addAssetB oracle (str "jcr")) as) fun _ =>
  bindB (getFilterXmlB custom oracle pages projectUrl) fun _ =>
  bindB (writePairB (str "jcr") (str "META-INF/vault/filter.xml")) fun _ =>
  bindB (writePairB (str "jcr") (str "META-INF/vault/properties.xml")) fun _ =>
  fun st => (Except.ok (),
    { st with writes := st.writes ++
        [WriteEvt.fsFile (str "jcr" ++ slash ::
          (getPackageName custom pages projectUrl ++ str ".zip"))] })

/-! ### Extraction of the `root=` targets of a generated XML document

A quote-aware scanner over the document text: single quotes delimit
attribute values, and a value is a filter root exactly when the text
immediately before its opening quote ends in `root=`. -/

/-- Scanner state: roots collected so far, the current text run (reversed),
and — when inside an attribute value — the captured value so far (reversed)
together with whether its opener followed `root=`. -/
structure ScanSt where
  roots : List Str
  recent : Str
  mode : Option (Str × Bool)
  deriving Repr, DecidableEq

/-- Does the (reversed) text run end in `root=`? -/
def rootMark (recent : Str) : Bool := decide (recent.take 5 = str "=toor")

def scanStep (st : ScanSt) (c : Char) : ScanSt :=
  match st.mode with
  | none =>
    if c = quoteCh then { st with mode := some ([], rootMark st.recent) }
    else { st with recent := c :: st.recent }
  | some (buf, isRoot) =>
    if c = quoteCh then
      { roots := st.roots ++ (if isRoot then [buf.reverse] else []),
        recent := [], mode := none }
    else { st with mode := some (c :: buf, isRoot) }

/-- The `root='…'` attribute values of a document, in order. -/
def extractFilterRoots (doc : Str) : List Str :=
  (doc.foldl scanStep { roots := [], recent := [], mode := none }).roots

/-- A document piece scans cleanly to a root contribution: from any
outside-quotes state it ends outside quotes and appends exactly `roots`,
regardless of the incoming text run. -/
def ScansTo (piece : Str) (roots : List Str) : Prop :=
  ∀ R rc, ∃ rc', piece.foldl scanStep { roots := R, recent := rc, mode := none } =
    { roots := R ++ roots, recent := rc', mode := none }

/-- The filter roots contributed by one page's filter block: the page's
content node plus one per extracted child. -/
def pageRootsOf (p : JcrPage) : List Str :=
  (p.jcrPath ++ str "/jcr:content") ::
    p.pageContentChildren.map (fun c => p.jcrPath ++ str "/jcr:content/" ++ c)

/-! ### Asset-scan value characterization and dedup invariant (C8) -/

/-- The value computed by the inner scan loop (its state effects are only
log entries). -/
def scanRefsVal (custom : Option Str) (pageUrl projectUrl : Str)
    (acc : List Asset) : List Str → List Asset
  | [] => acc
  | ref :: rest =>
    scanRefsVal custom pageUrl projectUrl
      (scanPush acc (getAsset custom (some ref) pageUrl projectUrl)) rest

/-- The value computed by the outer scan loop. -/
def scanPagesVal (custom : Option Str) (projectUrl : Str)
    (acc : List Asset) : List JcrPage → List Asset
  | [] => acc
  | p :: ps =>
    scanPagesVal custom projectUrl
      (scanRefsVal custom p.url projectUrl acc p.sourceXml.refs) ps

/-- Occurrence count of a path in a list of paths (with plain equality, to
state emission multiplicities). -/
def countStr (a : Str) : List Str → Nat
  | [] => 0
  | x :: t => (if x = a then 1 else 0) + countStr a t

/-- The synthetic descriptor emitted for one ancestor path. -/
def mkAncestor (a : Str) : AncestorPage :=
  { jcrPath := a, contentXmlPath := str "jcr_root" ++ a ++ str "/.content.xml" }

/-! ### Concrete fixtures used by counterexamples and witnesses -/

/-- An empty parsed page markup. -/
def emptyDoc : PageDoc := { contentProps := [], contentChildren := [], refs := [] }

/-- A resolved page with no content properties, no children, page path
`/content/s/p` (fixture for the filter counterexample). -/
def pageF : JcrPage :=
  { path := str "/p", sourceXml := emptyDoc, pageProperties := [],
    pageContentChildren := [], processedXml := emptyDoc,
    jcrPath := str "/content/s/p",
    contentXmlPath := str "jcr_root/content/s/p/.content.xml",
    url := str "https://h/p" }

/-- A resolved page with one content property and one child (fixture for
the filter witness). -/
def pageW : JcrPage :=
  { path := str "/p", sourceXml := emptyDoc,
    pageProperties := [str "jcr:title"], pageContentChildren := [str "par"],
    processedXml := emptyDoc, jcrPath := str "/content/s/p",
    contentXmlPath := str "jcr_root/content/s/p/.content.xml",
    url := str "https://h/p" }

/-- An included asset fixture. -/
def assetW : Asset :=
  { fileReference := str "/a.png", processedFileRef := str "/content/dam/s/a.png",
    jcrPath := some (str "/content/dam/s/a.png"),
    url := some { origin := str "https://h", pathname := str "/a.png", params := [] },
    add := true, blob := none, mimeType := none }

/-- Two resolved pages sharing the ancestors `/content/s` and
`/content/s/a` (fixture for the ancestor-emission counterexample). -/
def pageX : JcrPage :=
  { pageF with jcrPath := str "/content/s/a/x" }

def pageY : JcrPage :=
  { pageF with jcrPath := str "/content/s/a/y" }

/-- An included asset whose URL is fetched (fixture for the fetch-failure
claim). -/
def assetC3 : Asset :=
  { fileReference := str "/img/a.png",
    processedFileRef := str "/content/dam/s/img/a.png",
    jcrPath := some (str "/content/dam/s/img/a.png"),
    url := some { origin := str "https://h", pathname := str "/img/a.png",
                  params := [] },
    add := true, blob := none, mimeType := none }

/-! ### Value functions and run lemmas for the whole build (C4) -/

/-- The rewritten value of one `fileReference` (the value `getProcessedJcr`
stores back into the attribute). -/
def processedRefVal (custom : Option Str) (pageUrl projectUrl : Str)
    (ref : Str) : Str :=
  match getAsset custom (some ref) pageUrl projectUrl with
  | some a => a.processedFileRef
  | none => []

/-- The page record `getJcrPages` computes for one input page. -/
def jcrPageVal (custom : Option Str) (projectUrl : Str) (page : InPage) : JcrPage :=
  { path := page.path, sourceXml := page.data,
    pageProperties := page.data.contentProps,
    pageContentChildren := page.data.contentChildren,
    processedXml := { page.data with
      refs := page.data.refs.map (processedRefVal custom page.url projectUrl) },
    jcrPath := getJcrPagePath custom page.path projectUrl,
    contentXmlPath := str "jcr_root" ++ getJcrPagePath custom page.path projectUrl ++
      str "/.content.xml",
    url := page.url }

/-- Resolve events recorded while rewriting one reference: two for an
`http…` reference (rewrite plus mime-type classification), one otherwise. -/
def refResolveList (ref : Str) : List Str :=
  if (str "http").isPrefixOf ref then [ref, ref] else [ref]

/-- Fetch events recorded while rewriting one reference: one for an
`http…` reference that is not included in the package. -/
def refFetchList (custom : Option Str) (pageUrl projectUrl : Str)
    (ref : Str) : List Str :=
  if (str "http").isPrefixOf ref then
    match getAsset custom (some ref) pageUrl projectUrl with
    | some a =>
      if a.add then []
      else match a.url with
        | none => []
        | some u => [urlHref u]
    | none => []
  else []

/-- Fetch events recorded by `fetchAssetData` for one asset. -/
def assetFetchKeys (a : Asset) : List Str :=
  match a.url with
  | none => []
  | some u => [urlHref u]

/-- The archive/filesystem write pair recorded for one artifact path. -/
def pagePairWrites (pfx : Str) (path : Str) : List WriteEvt :=
  [WriteEvt.zipEntry path, WriteEvt.fsFile (pfx ++ slash :: path)]

/-- The string JS interpolates for an asset's `jcrPath` (an `undefined`
path stringifies to `undefined`). -/
def assetJcrStr (a : Asset) : Str :=
  match a.jcrPath with
  | some p => p
  | none => str "undefined"

/-- The four writes `addAsset` performs for one asset. -/
def assetWrites (pfx : Str) (a : Asset) : List WriteEvt :=
  pagePairWrites pfx (str "jcr_root" ++ assetJcrStr a ++ str "/.content.xml") ++
  pagePairWrites pfx
    (str "jcr_root" ++ assetJcrStr a ++ str "/_jcr_content/renditions/original")

/-! ### C4: cache lifecycle and per-build parse/resolve/fetch counts -/

/-- A one-page fixture with a single local image reference, for observing
the build trace. -/
def pageC4 : InPage :=
  { path := str "/a/b",
    data := { contentProps := [], contentChildren := [],
              refs := [str "/i.png"] },
    url := str "https://h/a/b" }

/-- A network that answers every fetch with a successful image response. -/
def oracleC4 : Str → FetchOutcome :=
  fun _ => FetchOutcome.success (some (str "image/png")) (str "X")

/-! ### Theorems -/
theorem splitOnChar_ne_nil (sep : Char) (s : Str) : splitOnChar sep s ≠ [] := by
  cases s with
  | nil => simp [splitOnChar]
  | cons c rest =>
    simp only [splitOnChar]
    split
    · simp
    · simp

theorem splitOnChar_cons_sep (sep : Char) (rest : Str) :
    splitOnChar sep (sep :: rest) = [] :: splitOnChar sep rest := by
  simp [splitOnChar]

theorem splitOnChar_cons_ne (sep c : Char) (rest : Str) (h : c ≠ sep) :
    splitOnChar sep (c :: rest) =
      (c :: (splitOnChar sep rest).headD []) :: (splitOnChar sep rest).tail := by
  simp [splitOnChar, h]

/-- Splitting a string that starts with a separator-free segment followed by
the separator peels off that segment. -/
theorem splitOnChar_seg (sep : Char) (seg rest : Str) (h : sep ∉ seg) :
    splitOnChar sep (seg ++ sep :: rest) = seg :: splitOnChar sep rest := by
  induction seg with
  | nil => simp [splitOnChar_cons_sep]
  | cons c cs ih =>
    have hc : c ≠ sep := by
      intro he; exact h (by simp [he])
    have hcs : sep ∉ cs := by
      intro hm; exact h (by simp [hm])
    have hr := ih hcs
    simp only [List.cons_append, splitOnChar_cons_ne sep c _ hc, hr]
    have hne := splitOnChar_ne_nil sep rest
    simp

theorem specWorkedExample1 :
    getJcrPagePath none (str "/content/other-site/foo") (str "https://github.com/org/repo")
      = str "/content/repo/foo" := by decide

theorem specWorkedExample2 :
    getJcrPagePath none (str "/foo/bar") (str "https://github.com/org/repo")
      = str "/content/repo/foo/bar" := by decide

theorem specWorkedExample3 :
    getJcrAssetPath none
      { origin := str "https://host",
        pathname := str "/content/dam/other/images/a.png", params := [] }
      (str "https://github.com/org/repo")
      = str "/content/dam/repo/images/a.png" := by decide

theorem specWorkedExample4 :
    getJcrAssetPath none
      { origin := str "https://host", pathname := str "/media/a.png",
        params := [(str "width", str "100")] }
      (str "https://github.com/org/repo")
      = str "/content/dam/repo/media/a_width100.png" := by decide

/-! ### Characterization lemmas for the dot-split used by `getJcrAssetPath` -/

theorem splitOnChar_chunk_no_sep (sep : Char) (s : Str) :
    ∀ chunk ∈ splitOnChar sep s, sep ∉ chunk := by
  induction s with
  | nil =>
    intro chunk hc
    simp [splitOnChar] at hc
    simp [hc]
  | cons c rest ih =>
    intro chunk hc
    rcases hsp : splitOnChar sep rest with _ | ⟨h0, t⟩
    · exact absurd hsp (splitOnChar_ne_nil sep rest)
    by_cases hcs : c = sep
    · rw [hcs, splitOnChar_cons_sep, hsp] at hc
      rcases List.mem_cons.mp hc with h | h
      · simp [h]
      · exact ih chunk (by rw [hsp]; exact h)
    · rw [splitOnChar_cons_ne sep c rest hcs, hsp] at hc
      simp only [List.headD_cons, List.tail_cons] at hc
      rcases List.mem_cons.mp hc with h | h
      · subst h
        intro hmem
        rcases List.mem_cons.mp hmem with h' | h'
        · exact hcs h'.symm
        · exact ih h0 (by rw [hsp]; simp) h'
      · exact ih chunk (by rw [hsp]; exact List.mem_cons_of_mem _ h)

theorem splitOnChar_no_sep (sep : Char) (s : Str) (h : sep ∉ s) :
    splitOnChar sep s = [s] := by
  induction s with
  | nil => simp [splitOnChar]
  | cons c rest ih =>
    have hc : c ≠ sep := fun he => h (by simp [he])
    have hrest : sep ∉ rest := fun hm => h (by simp [hm])
    simp [splitOnChar, hc, ih hrest]

theorem splitOnChar_two_le (sep : Char) (s : Str) (h : sep ∈ s) :
    2 ≤ (splitOnChar sep s).length := by
  induction s with
  | nil => simp at h
  | cons c rest ih =>
    simp only [splitOnChar]
    by_cases hc : c = sep
    · simp [hc]
      have := List.length_pos.mpr (splitOnChar_ne_nil sep rest)
      omega
    · have hmem : sep ∈ rest := by
        rcases List.mem_cons.mp h with h' | h'
        · exact absurd h'.symm hc
        · exact h'
      have h2 := ih hmem
      simp [hc]
      have : (splitOnChar sep rest).tail.length = (splitOnChar sep rest).length - 1 :=
        List.length_tail _
      omega

theorem splitOnChar_getLastD_suffix (sep : Char) (s : Str) (h : sep ∈ s) :
    sep :: (splitOnChar sep s).getLastD [] <:+ s := by
  induction s with
  | nil => simp at h
  | cons c rest ih =>
    by_cases hc : c = sep
    · subst hc
      rw [splitOnChar_cons_sep]
      by_cases hmem : c ∈ rest
      · have hsuf := ih hmem
        have hne := splitOnChar_ne_nil c rest
        rcases hsp : splitOnChar c rest with _ | ⟨a, l⟩
        · exact absurd hsp hne
        · rw [hsp] at hsuf
          simp only [List.getLastD_cons] at hsuf ⊢
          exact hsuf.trans (List.suffix_cons c rest)
      · rw [splitOnChar_no_sep c rest hmem]
        simp
    · have hmem : sep ∈ rest := by
        rcases List.mem_cons.mp h with h' | h'
        · exact absurd h'.symm hc
        · exact h'
      have hsuf := ih hmem
      rw [splitOnChar_cons_ne sep c rest hc]
      have h2 := splitOnChar_two_le sep rest hmem
      rcases hsp : splitOnChar sep rest with _ | ⟨a, l⟩
      · exact absurd hsp (splitOnChar_ne_nil sep rest)
      · rcases l with _ | ⟨b, l'⟩
        · rw [hsp] at h2; simp at h2
        · rw [hsp] at hsuf
          simp only [List.headD_cons, List.tail_cons]
          simp only [List.getLastD_cons] at hsuf ⊢
          exact hsuf.trans (List.suffix_cons c rest)

/-! ### Lemmas about `removeFirst` (JS `String.replace` with a string pattern) -/

theorem removeFirst_go_sound (pat s r : Str) (h : removeFirst.go pat s = some r) :
    ∃ a b, s = a ++ pat ++ b ∧ r = a ++ b := by
  induction s generalizing r with
  | nil => simp [removeFirst.go] at h
  | cons c rest ih =>
    simp only [removeFirst.go] at h
    by_cases hp : pat.isPrefixOf (c :: rest)
    · rw [if_pos hp] at h
      have hpref : pat <+: (c :: rest) := List.isPrefixOf_iff_prefix.mp hp
      rcases hpref with ⟨b, hb⟩
      refine ⟨[], b, by simp [hb.symm], ?_⟩
      have : r = (c :: rest).drop pat.length := by
        injection h with h'; exact h'.symm
      rw [this, ← hb]
      simp
    · rw [if_neg hp] at h
      rcases hgo : removeFirst.go pat rest with _ | r'
      · rw [hgo] at h; simp at h
      · rw [hgo] at h
        rcases ih r' hgo with ⟨a, b, hs, hr⟩
        refine ⟨c :: a, b, by simp [hs], ?_⟩
        injection h with h'
        rw [← h', hr]
        simp

theorem removeFirst_go_complete (pat a b : Str) (hpat : pat ≠ []) :
    ∃ r, removeFirst.go pat (a ++ pat ++ b) = some r := by
  induction a with
  | nil =>
    refine ⟨b, ?_⟩
    have hne : pat ++ b ≠ [] := fun hx => hpat (List.append_eq_nil.mp hx).1
    rcases hq : pat ++ b with _ | ⟨d, q'⟩
    · exact absurd hq hne
    · have hpref : pat.isPrefixOf (d :: q') := by
        rw [← hq]; exact List.isPrefixOf_iff_prefix.mpr ⟨b, rfl⟩
      simp only [List.nil_append, hq, removeFirst.go, if_pos hpref]
      rw [← hq, List.drop_left]
  | cons c a' ih =>
    rcases ih with ⟨r, hr⟩
    have hshape : (c :: a') ++ pat ++ b = c :: (a' ++ pat ++ b) := by
      simp only [List.cons_append]
    rw [hshape]
    by_cases hp : pat.isPrefixOf (c :: (a' ++ pat ++ b))
    · refine ⟨(c :: (a' ++ pat ++ b)).drop pat.length, ?_⟩
      simp only [removeFirst.go, if_pos hp]
    · refine ⟨c :: r, ?_⟩
      simp only [removeFirst.go, if_neg hp, hr]

theorem scansTo_nil : ScansTo [] [] := by
  intro R rc
  exact ⟨rc, by simp⟩

theorem scansTo_append {a b : Str} {ra rb : List Str}
    (ha : ScansTo a ra) (hb : ScansTo b rb) : ScansTo (a ++ b) (ra ++ rb) := by
  intro R rc
  rcases ha R rc with ⟨rc1, h1⟩
  rcases hb (R ++ ra) rc1 with ⟨rc2, h2⟩
  refine ⟨rc2, ?_⟩
  rw [List.foldl_append, h1, h2, List.append_assoc]

theorem foldl_scan_text (cs : Str) (h : quoteCh ∉ cs) (R : List Str) (rc : Str) :
    cs.foldl scanStep { roots := R, recent := rc, mode := none } =
      { roots := R, recent := cs.reverse ++ rc, mode := none } := by
  induction cs generalizing rc with
  | nil => simp
  | cons c rest ih =>
    have hc : c ≠ quoteCh := fun he => h (by simp [he])
    have hrest : quoteCh ∉ rest := fun hm => h (by simp [hm])
    simp only [List.foldl_cons, scanStep, if_neg hc]
    rw [ih hrest (c :: rc)]
    simp

theorem scansTo_text (cs : Str) (h : quoteCh ∉ cs) : ScansTo cs [] := by
  intro R rc
  exact ⟨cs.reverse ++ rc, by rw [foldl_scan_text cs h, List.append_nil]⟩

theorem foldl_scan_value (cs : Str) (h : quoteCh ∉ cs) (R : List Str)
    (rc : Str) (buf : Str) (b : Bool) :
    cs.foldl scanStep { roots := R, recent := rc, mode := some (buf, b) } =
      { roots := R, recent := rc, mode := some (cs.reverse ++ buf, b) } := by
  induction cs generalizing buf with
  | nil => simp
  | cons c rest ih =>
    have hc : c ≠ quoteCh := fun he => h (by simp [he])
    have hrest : quoteCh ∉ rest := fun hm => h (by simp [hm])
    simp only [List.foldl_cons, scanStep, if_neg hc]
    rw [ih hrest (c :: buf)]
    simp

theorem foldl_scan_open (R : List Str) (rc : Str) :
    List.foldl scanStep { roots := R, recent := rc, mode := none } qs =
      { roots := R, recent := rc, mode := some ([], rootMark rc) } := by
  simp [qs, scanStep]

theorem foldl_scan_close (R : List Str) (rc buf : Str) (b : Bool) :
    List.foldl scanStep { roots := R, recent := rc, mode := some (buf, b) } qs =
      { roots := R ++ (if b then [buf.reverse] else []),
        recent := [], mode := none } := by
  simp [qs, scanStep]

/-- Scanning a complete single-quoted attribute `t ++ ' ++ v ++ '` whose
leading text `t` decides the root marker on its own. -/
theorem scansTo_attr (t v : Str) (isR : Bool)
    (ht : quoteCh ∉ t) (hv : quoteCh ∉ v)
    (hmark : ∀ rc, rootMark (t.reverse ++ rc) = isR) :
    ScansTo (t ++ qs ++ v ++ qs) (if isR then [v] else []) := by
  intro R rc
  refine ⟨[], ?_⟩
  rw [List.foldl_append, List.foldl_append, List.foldl_append]
  rw [foldl_scan_text t ht, foldl_scan_open, hmark rc,
    foldl_scan_value v hv, foldl_scan_close]
  simp

/-! ### `ScansTo` facts for each piece of the generated filter document -/

theorem scansTo_includeElem (P pr : Str) (hP : quoteCh ∉ P) (hpr : quoteCh ∉ pr) :
    ScansTo (includeElem P pr) [] := by
  have hv : quoteCh ∉ P ++ str "/jcr:content/" ++ pr := by
    intro hmem
    rcases List.mem_append.mp hmem with h | h
    · rcases List.mem_append.mp h with h' | h'
      · exact hP h'
      · exact (by decide : quoteCh ∉ str "/jcr:content/") h'
    · exact hpr h
  have h1 := scansTo_attr (str "<include pattern=") (P ++ str "/jcr:content/" ++ pr)
    false (by decide) hv (fun rc => rfl)
  have h2 := scansTo_attr (str " matchProperties=") (str "true")
    false (by decide) (by decide) (fun rc => rfl)
  have h3 := scansTo_text (str "/>") (by decide)
  have h := scansTo_append (scansTo_append h1 h2) h3
  simpa [includeElem] using h

theorem scansTo_childElem (P c : Str) (hP : quoteCh ∉ P) (hc : quoteCh ∉ c) :
    ScansTo (childFilterElem P c) [P ++ str "/jcr:content/" ++ c] := by
  have hv : quoteCh ∉ P ++ str "/jcr:content/" ++ c := by
    intro hmem
    rcases List.mem_append.mp hmem with h | h
    · rcases List.mem_append.mp h with h' | h'
      · exact hP h'
      · exact (by decide : quoteCh ∉ str "/jcr:content/") h'
    · exact hc h
  have h1 := scansTo_attr (str "<filter root=") (P ++ str "/jcr:content/" ++ c)
    true (by decide) hv (fun rc => rfl)
  have h2 := scansTo_text (str "/>") (by decide)
  have h := scansTo_append h1 h2
  simpa [childFilterElem] using h

theorem scansTo_assetElem (path : Str) (h : quoteCh ∉ path) :
    ScansTo (assetFilterElem path) [path] := by
  have h1 := scansTo_attr (str "<filter root=") path true (by decide) h
    (fun rc => rfl)
  have h2 := scansTo_text (str "/>\n") (by decide)
  have hh := scansTo_append h1 h2
  simpa [assetFilterElem] using hh

theorem scansTo_propsJoin (P : Str) (props : List Str) (hP : quoteCh ∉ P)
    (h : ∀ x ∈ props, quoteCh ∉ x) :
    ScansTo (joinChar '\n' (props.map (includeElem P))) [] := by
  induction props with
  | nil => simpa [joinChar] using scansTo_nil
  | cons pr rest ih =>
    cases rest with
    | nil =>
      simpa [joinChar] using scansTo_includeElem P pr hP (h pr (by simp))
    | cons b bs =>
      have hx := scansTo_includeElem P pr hP (h pr (by simp))
      have hnl := scansTo_text (str "\n") (by decide)
      have hrest := ih (fun y hy => h y (List.mem_cons_of_mem _ hy))
      have hh := scansTo_append hx (scansTo_append hnl hrest)
      have hshape : includeElem P pr ++ (str "\n" ++
          joinChar '\n' ((b :: bs).map (includeElem P))) =
          joinChar '\n' ((pr :: b :: bs).map (includeElem P)) := by
        simp [joinChar]
        rfl
      rw [hshape] at hh
      simpa using hh

theorem scansTo_childrenJoin (P : Str) (children : List Str) (hP : quoteCh ∉ P)
    (h : ∀ x ∈ children, quoteCh ∉ x) :
    ScansTo (joinChar '\n' (children.map (childFilterElem P)))
      (children.map (fun c => P ++ str "/jcr:content/" ++ c)) := by
  induction children with
  | nil => simpa [joinChar] using scansTo_nil
  | cons c rest ih =>
    cases rest with
    | nil =>
      simpa [joinChar] using scansTo_childElem P c hP (h c (by simp))
    | cons b bs =>
      have hx := scansTo_childElem P c hP (h c (by simp))
      have hnl := scansTo_text (str "\n") (by decide)
      have hrest := ih (fun y hy => h y (List.mem_cons_of_mem _ hy))
      have hh := scansTo_append hx (scansTo_append hnl hrest)
      have hshape : childFilterElem P c ++ (str "\n" ++
          joinChar '\n' ((b :: bs).map (childFilterElem P))) =
          joinChar '\n' ((c :: b :: bs).map (childFilterElem P)) := by
        simp [joinChar]
        rfl
      rw [hshape] at hh
      simpa using hh

theorem scansTo_pageBlock (p : JcrPage) (hP : quoteCh ∉ p.jcrPath)
    (hprops : ∀ x ∈ p.pageProperties, quoteCh ∉ x)
    (hch : ∀ x ∈ p.pageContentChildren, quoteCh ∉ x) :
    ScansTo (pageFilterBlock p) (pageRootsOf p) := by
  have hv : quoteCh ∉ p.jcrPath ++ str "/jcr:content" := by
    intro hmem
    rcases List.mem_append.mp hmem with h | h
    · exact hP h
    · exact (by decide : quoteCh ∉ str "/jcr:content") h
  have h1 := scansTo_attr (str "<filter root=") (p.jcrPath ++ str "/jcr:content")
    true (by decide) hv (fun rc => rfl)
  have h2 := scansTo_text (str ">\n") (by decide)
  have h3 := scansTo_propsJoin p.jcrPath p.pageProperties hP hprops
  have h4 := scansTo_text (str "\n</filter>\n") (by decide)
  have h5 := scansTo_childrenJoin p.jcrPath p.pageContentChildren hP hch
  have h6 := scansTo_text (str "\n") (by decide)
  have hh := scansTo_append (scansTo_append (scansTo_append
    (scansTo_append (scansTo_append h1 h2) h3) h4) h5) h6
  simpa [pageFilterBlock, pageRootsOf] using hh

theorem foldl_append_acc {α : Type} (f : α → Str) (ps : List α) (s : Str) :
    ps.foldl (fun acc p => acc ++ f p) s =
      s ++ ps.foldl (fun acc p => acc ++ f p) [] := by
  induction ps generalizing s with
  | nil => simp
  | cons p rest ih =>
    simp only [List.foldl_cons]
    rw [ih (s ++ f p), ih ([] ++ f p)]
    simp

theorem pageFilters_cons (p : JcrPage) (ps : List JcrPage) :
    pageFilters (p :: ps) = pageFilterBlock p ++ pageFilters ps := by
  unfold pageFilters
  simp only [List.foldl_cons]
  rw [foldl_append_acc]
  simp

theorem assetFilters_cons (a : Str) (as : List Str) :
    assetFilters (a :: as) = assetFilterElem a ++ assetFilters as := by
  unfold assetFilters
  simp only [List.foldl_cons]
  rw [foldl_append_acc]
  simp

theorem scansTo_pageFilters (ps : List JcrPage)
    (h : ∀ p ∈ ps, quoteCh ∉ p.jcrPath ∧ (∀ x ∈ p.pageProperties, quoteCh ∉ x) ∧
      (∀ x ∈ p.pageContentChildren, quoteCh ∉ x)) :
    ScansTo (pageFilters ps) (ps.flatMap pageRootsOf) := by
  induction ps with
  | nil => simpa [pageFilters] using scansTo_nil
  | cons p rest ih =>
    rcases h p (by simp) with ⟨h1, h2, h3⟩
    have hp := scansTo_pageBlock p h1 h2 h3
    have hrest := ih (fun y hy => h y (List.mem_cons_of_mem _ hy))
    have hh := scansTo_append hp hrest
    rw [← pageFilters_cons] at hh
    simpa using hh

theorem scansTo_assetFilters (paths : List Str)
    (h : ∀ x ∈ paths, quoteCh ∉ x) :
    ScansTo (assetFilters paths) paths := by
  induction paths with
  | nil => simpa [assetFilters] using scansTo_nil
  | cons a rest ih =>
    have ha := scansTo_assetElem a (h a (by simp))
    have hrest := ih (fun y hy => h y (List.mem_cons_of_mem _ hy))
    have hh := scansTo_append ha hrest
    rw [← assetFilters_cons] at hh
    exact hh

theorem scansTo_filterHeader : ScansTo filterHeader [] := by
  have h1 := scansTo_attr (str "<?xml version=") (str "1.0") false
    (by decide) (by decide) (fun rc => rfl)
  have h2 := scansTo_attr (str " encoding=") (str "UTF-8") false
    (by decide) (by decide) (fun rc => rfl)
  have h3 := scansTo_attr (str "?>\n    <workspaceFilter version=") (str "1.0")
    false (by decide) (by decide) (fun rc => rfl)
  have h4 := scansTo_text (str ">\n      ") (by decide)
  have hh := scansTo_append (scansTo_append (scansTo_append h1 h2) h3) h4
  simpa [filterHeader] using hh

/-- The `root=` targets of the generated filter document are exactly the
page content-node roots (with their child roots) followed by the included
asset paths. -/
theorem extract_buildFilterXml (ps : List JcrPage) (assetPaths : List Str)
    (hps : ∀ p ∈ ps, quoteCh ∉ p.jcrPath ∧
      (∀ x ∈ p.pageProperties, quoteCh ∉ x) ∧
      (∀ x ∈ p.pageContentChildren, quoteCh ∉ x))
    (has : ∀ x ∈ assetPaths, quoteCh ∉ x) :
    extractFilterRoots (buildFilterXml ps assetPaths) =
      ps.flatMap pageRootsOf ++ assetPaths := by
  have hH := scansTo_filterHeader
  have hP := scansTo_pageFilters ps hps
  have hM := scansTo_text filterMiddle (by decide)
  have hA := scansTo_assetFilters assetPaths has
  have hF := scansTo_text filterFooter (by decide)
  have hh := scansTo_append (scansTo_append (scansTo_append
    (scansTo_append hH hP) hM) hA) hF
  rcases hh [] [] with ⟨rc', hfold⟩
  unfold extractFilterRoots buildFilterXml
  rw [hfold]
  simp

/-! ### Namespace containment (C7) -/

theorem split_content_prefix (r : Str) :
    splitOnChar slash (str "/content/" ++ r) =
      [] :: str "content" :: splitOnChar slash r := by
  have h0 : str "/content/" = slash :: (str "content" ++ [slash]) := by decide
  have h1 : str "/content/" ++ r = slash :: (str "content" ++ slash :: r) := by
    rw [h0]; simp
  rw [h1, splitOnChar_cons_sep, splitOnChar_seg slash (str "content") r (by decide)]

theorem split_content_dam_prefix (r : Str) :
    splitOnChar slash (str "/content/dam/" ++ r) =
      [] :: str "content" :: str "dam" :: splitOnChar slash r := by
  have h0 : str "/content/dam/" =
      slash :: (str "content" ++ slash :: (str "dam" ++ [slash])) := by decide
  have h1 : str "/content/dam/" ++ r =
      slash :: (str "content" ++ slash :: (str "dam" ++ slash :: r)) := by
    rw [h0]; simp
  rw [h1, splitOnChar_cons_sep, splitOnChar_seg slash (str "content") _ (by decide),
    splitOnChar_seg slash (str "dam") r (by decide)]

theorem join_page_shape (site : Str) (t : List Str) :
    ∃ u, joinChar slash ([] :: str "content" :: site :: t) =
      (str "/content/" ++ site) ++ u := by
  have h0 : str "/content/" = slash :: (str "content" ++ [slash]) := by decide
  cases t with
  | nil =>
    refine ⟨[], ?_⟩
    rw [h0]
    simp [joinChar]
  | cons y ys =>
    refine ⟨slash :: joinChar slash (y :: ys), ?_⟩
    rw [h0]
    simp [joinChar]

theorem join_dam_shape (site : Str) (t : List Str) :
    ∃ u, joinChar slash ([] :: str "content" :: str "dam" :: site :: t) =
      (str "/content/dam/" ++ site) ++ u := by
  have h0 : str "/content/dam/" =
      slash :: (str "content" ++ slash :: (str "dam" ++ [slash])) := by decide
  cases t with
  | nil =>
    refine ⟨[], ?_⟩
    rw [h0]
    simp [joinChar]
  | cons y ys =>
    refine ⟨slash :: joinChar slash (y :: ys), ?_⟩
    rw [h0]
    simp [joinChar]

theorem pagePath_starts (custom : Option Str) (path projectUrl : Str) :
    str "/content/" ++ getSiteName custom projectUrl <+:
      getJcrPagePath custom path projectUrl := by
  unfold getJcrPagePath
  cases hb : (str "/content/").isPrefixOf path with
  | false =>
    simp only [hb, Bool.false_eq_true, if_false]
    exact List.prefix_append _ _
  | true =>
    simp only [hb, if_true]
    obtain ⟨r, hr⟩ := List.isPrefixOf_iff_prefix.mp hb
    rw [← hr, split_content_prefix r]
    rcases hS : splitOnChar slash r with _ | ⟨a, t⟩
    · exact absurd hS (splitOnChar_ne_nil slash r)
    · have hsp : spliceReplace 2 (getSiteName custom projectUrl)
          ([] :: str "content" :: a :: t) =
          [] :: str "content" :: getSiteName custom projectUrl :: t := by
        simp [spliceReplace]
      rw [hsp]
      obtain ⟨u, hu⟩ := join_page_shape (getSiteName custom projectUrl) t
      rw [hu]
      exact List.prefix_append _ _

theorem assetPath_starts (custom : Option Str) (u : URLm) (projectUrl : Str) :
    str "/content/dam/" ++ getSiteName custom projectUrl <+:
      getJcrAssetPath custom u projectUrl := by
  unfold getJcrAssetPath
  cases hb : (str "/content/dam/").isPrefixOf (jcrAssetBase u.pathname) with
  | false =>
    simp only [hb, Bool.false_eq_true, if_false]
    simp only [List.append_assoc]
    exact List.prefix_append _ _
  | true =>
    simp only [hb, if_true]
    obtain ⟨r, hr⟩ := List.isPrefixOf_iff_prefix.mp hb
    rw [← hr, split_content_dam_prefix r]
    rcases hS : splitOnChar slash r with _ | ⟨a, t⟩
    · exact absurd hS (splitOnChar_ne_nil slash r)
    · have hsp : spliceReplace 3 (getSiteName custom projectUrl)
          ([] :: str "content" :: str "dam" :: a :: t) =
          [] :: str "content" :: str "dam" :: getSiteName custom projectUrl :: t := by
        simp [spliceReplace]
      rw [hsp]
      obtain ⟨v, hv⟩ := join_dam_shape (getSiteName custom projectUrl) t
      rw [hv]
      rw [List.append_assoc]
      exact List.prefix_append _ _

theorem scanRefsB_run (custom : Option Str) (pageUrl projectUrl : Str) :
    ∀ (refs : List Str) (acc : List Asset) (st : BuildSt),
    scanRefsB custom pageUrl projectUrl acc refs st =
      (Except.ok (scanRefsVal custom pageUrl projectUrl acc refs),
       { st with resolveLog := st.resolveLog ++ refs }) := by
  intro refs
  induction refs with
  | nil => intro acc st; simp [scanRefsB, scanRefsVal, pureB]
  | cons ref rest ih =>
    intro acc st
    simp only [scanRefsB, scanRefsVal, bindB, getAssetB, Option.getD_some]
    rw [ih]
    simp

theorem scanPagesB_run (custom : Option Str) (projectUrl : Str) :
    ∀ (ps : List JcrPage) (acc : List Asset) (st : BuildSt),
    scanPagesB custom projectUrl acc ps st =
      (Except.ok (scanPagesVal custom projectUrl acc ps),
       { st with parseLog := st.parseLog ++ ps.map (fun p => p.url),
                 resolveLog := st.resolveLog ++
                   ps.flatMap (fun p => p.sourceXml.refs) }) := by
  intro ps
  induction ps with
  | nil => intro acc st; simp [scanPagesB, scanPagesVal, pureB]
  | cons p rest ih =>
    intro acc st
    simp only [scanPagesB, scanPagesVal, bindB, recordParse]
    rw [scanRefsB_run]
    simp only []
    rw [ih]
    simp

theorem scanPush_pairwise (acc : List Asset) (assetOpt : Option Asset)
    (h : List.Pairwise (fun a b => a.jcrPath ≠ b.jcrPath) acc) :
    List.Pairwise (fun a b => a.jcrPath ≠ b.jcrPath) (scanPush acc assetOpt) := by
  match assetOpt with
  | none => exact h
  | some asset =>
    simp only [scanPush]
    by_cases hc : (asset.add = true) ∧
        (acc.find? (fun a => decide (a.jcrPath = asset.jcrPath))).isNone = true
    · rw [if_pos (by simp [hc.1, hc.2])]
      rw [List.pairwise_append]
      refine ⟨h, by simp, ?_⟩
      intro a ha b hb
      have hb' : b = asset := by simpa using hb
      subst hb'
      have hnone := hc.2
      rw [Option.isNone_iff_eq_none, List.find?_eq_none] at hnone
      have := hnone a ha
      simpa using this
    · rw [if_neg (by simpa using hc)]
      exact h

theorem scanRefsVal_pairwise (custom : Option Str) (pageUrl projectUrl : Str) :
    ∀ (refs : List Str) (acc : List Asset),
    List.Pairwise (fun a b => a.jcrPath ≠ b.jcrPath) acc →
    List.Pairwise (fun a b => a.jcrPath ≠ b.jcrPath)
      (scanRefsVal custom pageUrl projectUrl acc refs) := by
  intro refs
  induction refs with
  | nil => intro acc h; exact h
  | cons ref rest ih =>
    intro acc h
    exact ih _ (scanPush_pairwise acc _ h)

theorem scanPagesVal_pairwise (custom : Option Str) (projectUrl : Str) :
    ∀ (ps : List JcrPage) (acc : List Asset),
    List.Pairwise (fun a b => a.jcrPath ≠ b.jcrPath) acc →
    List.Pairwise (fun a b => a.jcrPath ≠ b.jcrPath)
      (scanPagesVal custom projectUrl acc ps) := by
  intro ps
  induction ps with
  | nil => intro acc h; exact h
  | cons p rest ih =>
    intro acc h
    exact ih _ (scanRefsVal_pairwise custom p.url projectUrl _ acc h)

/-! ### Ancestor-chain counting lemmas (C2) -/

theorem ancestorChainAux_longer :
    ∀ (segs : List Str) (acc x : Str), x ∈ ancestorChainAux acc segs →
      acc.length < x.length := by
  intro segs
  induction segs with
  | nil => intro acc x h; simp [ancestorChainAux] at h
  | cons s rest ih =>
    intro acc x h
    simp only [ancestorChainAux] at h
    rcases List.mem_cons.mp h with h | h
    · subst h; simp
    · have := ih (acc ++ slash :: s) x h
      simp at this
      omega

theorem ancestorChainAux_nodup :
    ∀ (segs : List Str) (acc : Str), (ancestorChainAux acc segs).Nodup := by
  intro segs
  induction segs with
  | nil => intro acc; simp [ancestorChainAux]
  | cons s rest ih =>
    intro acc
    simp only [ancestorChainAux]
    rw [List.nodup_cons]
    refine ⟨?_, ih _⟩
    intro hmem
    have := ancestorChainAux_longer rest (acc ++ slash :: s) _ hmem
    omega

theorem countStr_append (a : Str) (l1 l2 : List Str) :
    countStr a (l1 ++ l2) = countStr a l1 + countStr a l2 := by
  induction l1 with
  | nil => simp [countStr]
  | cons x t ih =>
    simp only [List.cons_append, countStr, List.append_eq]
    rw [ih]
    omega

theorem countStr_eq_zero_of_not_mem (a : Str) (l : List Str) (h : a ∉ l) :
    countStr a l = 0 := by
  induction l with
  | nil => rfl
  | cons x t ih =>
    have hx : x ≠ a := fun he => h (by simp [he])
    have ht : a ∉ t := fun hm => h (List.mem_cons_of_mem _ hm)
    simp [countStr, hx, ih ht]

theorem countStr_eq_one_of_nodup_mem (a : Str) (l : List Str)
    (hn : l.Nodup) (hm : a ∈ l) : countStr a l = 1 := by
  induction l with
  | nil => simp at hm
  | cons x t ih =>
    rw [List.nodup_cons] at hn
    rcases List.mem_cons.mp hm with h | h
    · subst h
      have h0 := countStr_eq_zero_of_not_mem a t hn.1
      simp [countStr, h0]
    · have hx : x ≠ a := by
        intro he; subst he; exact hn.1 h
      simp [countStr, hx, ih hn.2 h]

theorem countStr_filter_of_pos {p : Str → Bool} (a : Str) (h : p a = true)
    (l : List Str) : countStr a (l.filter p) = countStr a l := by
  induction l with
  | nil => rfl
  | cons x t ih =>
    by_cases hx : x = a
    · subst hx
      rw [List.filter_cons_of_pos h]
      simp [countStr, ih]
    · by_cases hp : p x = true
      · rw [List.filter_cons_of_pos hp]
        simp [countStr, hx, ih]
      · rw [List.filter_cons_of_neg (by simpa using hp)]
        simp [countStr, hx, ih]

theorem ancestorChain_count (p a : Str) :
    countStr a (ancestorChain p) =
      if a ∈ ancestorChain p then 1 else 0 := by
  by_cases h : a ∈ ancestorChain p
  · rw [if_pos h]
    exact countStr_eq_one_of_nodup_mem a _ (ancestorChainAux_nodup _ _) h
  · rw [if_neg h]
    exact countStr_eq_zero_of_not_mem a _ h

theorem getEmptyAncestorPages_eq (pages : List JcrPage) :
    getEmptyAncestorPages pages =
      (pages.map (fun p => p.jcrPath)).flatMap fun pagePath =>
        ((ancestorChain pagePath).filter
          (fun a => !((pages.map (fun p => p.jcrPath)).contains a))).map mkAncestor := by
  rfl

theorem contains_iff_memStr (l : List Str) (a : Str) : l.contains a = true ↔ a ∈ l := by
  simp

theorem length_filter_cons_true {f : Str → Bool} (x : Str) (l : List Str)
    (h : f x = true) : ((x :: l).filter f).length = (l.filter f).length + 1 := by
  rw [List.filter_cons_of_pos h]
  rfl

theorem length_filter_cons_false {f : Str → Bool} (x : Str) (l : List Str)
    (h : f x = false) : ((x :: l).filter f).length = (l.filter f).length := by
  rw [List.filter_cons_of_neg (by simp [h])]

theorem count_scaffold (paths excl : List Str) (a : Str) :
    countStr a ((paths.flatMap fun pp =>
        ((ancestorChain pp).filter (fun x => !(excl.contains x))).map mkAncestor).map
      (fun x => x.jcrPath)) =
      if a ∈ excl then 0
      else (paths.filter (fun pp => (ancestorChain pp).contains a)).length := by
  induction paths with
  | nil => simp [countStr]
  | cons pp rest ih =>
    rw [List.flatMap_cons, List.map_append, countStr_append, ih]
    have hcomp : ((fun x => x.jcrPath) ∘ mkAncestor) = @id Str := by
      funext x; rfl
    have hmap : (((ancestorChain pp).filter (fun x => !(excl.contains x))).map
        mkAncestor).map (fun x => x.jcrPath) =
        (ancestorChain pp).filter (fun x => !(excl.contains x)) := by
      rw [List.map_map, hcomp, List.map_id]
    rw [hmap]
    by_cases ha : a ∈ excl
    · have h0 : (if a ∈ excl then 0
          else (rest.filter (fun pp => (ancestorChain pp).contains a)).length) = 0 :=
        if_pos ha
      have h1 : (if a ∈ excl then 0
          else ((pp :: rest).filter (fun pp => (ancestorChain pp).contains a)).length)
          = 0 := if_pos ha
      rw [h0, h1]
      have hcontains : excl.contains a = true := (contains_iff_memStr excl a).mpr ha
      have hnotmem : a ∉ (ancestorChain pp).filter (fun x => !(excl.contains x)) := by
        intro hm
        have := List.of_mem_filter hm
        rw [hcontains] at this
        simp at this
      rw [countStr_eq_zero_of_not_mem a _ hnotmem]
    · have h0 : (if a ∈ excl then 0
          else (rest.filter (fun pp => (ancestorChain pp).contains a)).length) =
          (rest.filter (fun pp => (ancestorChain pp).contains a)).length :=
        if_neg ha
      have h1 : (if a ∈ excl then 0
          else ((pp :: rest).filter (fun pp => (ancestorChain pp).contains a)).length)
          = ((pp :: rest).filter (fun pp => (ancestorChain pp).contains a)).length :=
        if_neg ha
      rw [h0, h1]
      have hcontains : excl.contains a = false := by
        cases hc : excl.contains a
        · rfl
        · exact absurd ((contains_iff_memStr excl a).mp hc) ha
      have hpred : (fun x => !(excl.contains x)) a = true := by simp [ha]
      rw [countStr_filter_of_pos a hpred, ancestorChain_count]
      by_cases hmem : a ∈ ancestorChain pp
      · have hcc : (ancestorChain pp).contains a = true :=
          (contains_iff_memStr _ _).mpr hmem
        rw [if_pos hmem, length_filter_cons_true pp rest hcc]
        omega
      · have hcc : (ancestorChain pp).contains a = false := by
          cases hc : (ancestorChain pp).contains a
          · rfl
          · exact absurd ((contains_iff_memStr _ _).mp hc) hmem
        rw [if_neg hmem, length_filter_cons_false pp rest hcc]
        omega

/-! ### Remaining helpers for C5, C8 -/

theorem includesChar_iff (c : Char) (s : Str) : includesChar c s = true ↔ c ∈ s := by
  simp [includesChar]

theorem getLastD_memStr : ∀ (l : List Str) (d : Str), l ≠ [] → l.getLastD d ∈ l := by
  intro l
  induction l with
  | nil => intro d h; exact absurd rfl h
  | cons x t ih =>
    intro d _
    cases t with
    | nil => simp
    | cons y ys =>
      rw [List.getLastD_cons]
      exact List.mem_cons_of_mem _ (ih x (by simp))

theorem dropLast_append_ne (l1 l2 : List Char) (h : l2 ≠ []) :
    (l1 ++ l2).dropLast = l1 ++ l2.dropLast := by
  induction l1 with
  | nil => simp
  | cons c t ih =>
    have hne : t ++ l2 ≠ [] := by
      intro hx
      exact h (List.append_eq_nil.mp hx).2
    rcases hq : t ++ l2 with _ | ⟨d, q⟩
    · exact absurd hq hne
    · calc ((c :: t) ++ l2).dropLast = (c :: (t ++ l2)).dropLast := by simp
        _ = c :: (t ++ l2).dropLast := by rw [hq, List.dropLast_cons₂, ← hq]
        _ = c :: (t ++ l2.dropLast) := by rw [ih]
        _ = (c :: t) ++ l2.dropLast := by simp

theorem bindB_eq_ok {α β : Type} (m : BuildM α) (f : α → BuildM β) (st : BuildSt)
    (b : β) (stf : BuildSt) (h : bindB m f st = (Except.ok b, stf)) :
    ∃ a st1, m st = (Except.ok a, st1) ∧ f a st1 = (Except.ok b, stf) := by
  unfold bindB at h
  rcases hm : m st with ⟨res, st1⟩
  rw [hm] at h
  cases res with
  | ok a => exact ⟨a, st1, rfl, h⟩
  | error e => simp at h

/-! ### Claim theorems -/

set_option maxRecDepth 4000 in
/-- Claim C1, counterexample: in a build with one resolved page (path
`/content/s/p`, no content children) and no assets, the generated filter
document has the root target `/content/s/p/jcr:content`, which is not in
the union of page and asset `jcrPath`s — so the root-target set does not
equal that union. -/
theorem C1_counterexample :
    str "/content/s/p/jcr:content" ∈
      extractFilterRoots (buildFilterXml [pageF] (getResourcePathsAssets [])) ∧
    str "/content/s/p/jcr:content" ∉
      (getResourcePathsPages [pageF] ++ getResourcePathsAssets []) := by
  decide

/-- Claim C1, amended: the set of `root=` targets of the generated filter
document equals exactly the union of `<page jcrPath>/jcr:content` roots,
`<page jcrPath>/jcr:content/<child>` roots per extracted content child, and
the included assets' `jcrPath`s (for paths and names free of single
quotes) — no extras and no omissions. -/
theorem C1_filter_roots (ps : List JcrPage) (assets : List Asset)
    (hps : ∀ p ∈ ps, quoteCh ∉ p.jcrPath ∧
      (∀ x ∈ p.pageProperties, quoteCh ∉ x) ∧
      (∀ x ∈ p.pageContentChildren, quoteCh ∉ x))
    (has : ∀ x ∈ getResourcePathsAssets assets, quoteCh ∉ x) :
    extractFilterRoots (buildFilterXml ps (getResourcePathsAssets assets)) =
      ps.flatMap pageRootsOf ++ getResourcePathsAssets assets :=
  extract_buildFilterXml ps (getResourcePathsAssets assets) hps has

/-- Witness for the amended C1 at a concrete one-page, one-asset build. -/
theorem C1_filter_roots_witness :
    extractFilterRoots (buildFilterXml [pageW] (getResourcePathsAssets [assetW])) =
      [pageW].flatMap pageRootsOf ++ getResourcePathsAssets [assetW] :=
  C1_filter_roots [pageW] [assetW] (by decide) (by decide)

/-- Claim C2, counterexample: with resolved pages `/content/s/a/x` and
`/content/s/a/y`, the ancestor scaffold emits the shared ancestor
`/content/s/a` twice — the emitted list is not duplicate-free, because the
emission check consults only the resolved-page path set, not prior
emission. -/
theorem C2_counterexample :
    ¬ ((getEmptyAncestorPages [pageX, pageY]).map (fun x => x.jcrPath)).Nodup ∧
    countStr (str "/content/s/a")
      ((getEmptyAncestorPages [pageX, pageY]).map (fun x => x.jcrPath)) = 2 := by
  decide

/-- Claim C2, amended: an ancestor path that is itself a resolved page path
is never emitted; any other ancestor path is emitted once per resolved
page whose ancestor chain requires it (so an ancestor shared by several
pages is emitted several times, not once). -/
theorem C2_emission_count (pages : List JcrPage) (a : Str) :
    countStr a ((getEmptyAncestorPages pages).map (fun x => x.jcrPath)) =
      if a ∈ pages.map (fun p => p.jcrPath) then 0
      else ((pages.map (fun p => p.jcrPath)).filter
        (fun pp => (ancestorChain pp).contains a)).length := by
  rw [getEmptyAncestorPages_eq]
  exact count_scaffold (pages.map (fun p => p.jcrPath))
    (pages.map (fun p => p.jcrPath)) a

/-- Claim C3: evaluating `fetchAssetData` at the failing input.  A network
failure (rejected fetch) makes the destructuring of the `catch` handler's
`undefined` result throw a `TypeError`, which aborts the build — while a
non-success HTTP status is handled as the spec says: empty content and the
mime type from the extension lookup table. -/
theorem C3_fetch_failure :
    fetchAssetDataP assetC3 FetchOutcome.networkError =
      Except.error JsError.typeError ∧
    fetchAssetDataP assetC3 (FetchOutcome.httpError 404) =
      Except.ok { assetC3 with blob := none, mimeType := some (str "image/png") } :=
  ⟨rfl, rfl⟩

/-- Claim C5, counterexample: for the URL path `/a.png/b.png` the base and
extension computed by `getJcrAssetPath` do not reconstruct the path (the
extension's first occurrence, not its trailing occurrence, is removed);
and for `/a.b/c` the extension is `.b/c`, taken from the last dot anywhere
in the path although the final segment has no dot. -/
theorem C5_counterexample :
    jcrAssetBase (str "/a.png/b.png") ++ jcrAssetExt (str "/a.png/b.png") ≠
      str "/a.png/b.png" ∧
    jcrAssetExt (str "/a.b/c") = str ".b/c" := by
  decide

/-- Claim C5, amended: the extension is a dot plus the substring after the
last `.` anywhere in the URL path (empty when the path has no dot) — it is
dot-free and a suffix of the path; the base removes the first occurrence
of the extension, so base ++ extension reconstructs the path exactly when
that first occurrence is the trailing one. -/
theorem C5_split (u : URLm) :
    (jcrAssetExt u.pathname = [] ↔ '.' ∉ u.pathname) ∧
    ('.' ∈ u.pathname →
      '.' ∉ (splitOnChar '.' u.pathname).getLastD [] ∧
      jcrAssetExt u.pathname <:+ u.pathname) ∧
    ('.' ∈ u.pathname →
      ¬ jcrAssetExt u.pathname <:+: u.pathname.dropLast →
      jcrAssetBase u.pathname ++ jcrAssetExt u.pathname = u.pathname) := by
  refine ⟨?_, ?_, ?_⟩
  · by_cases hmem : '.' ∈ u.pathname
    · have hinc : includesChar '.' u.pathname = true :=
        (includesChar_iff _ _).mpr hmem
      simp [jcrAssetExt, hinc, hmem]
    · have hinc : includesChar '.' u.pathname = false := by
        cases hc : includesChar '.' u.pathname
        · rfl
        · exact absurd ((includesChar_iff _ _).mp hc) hmem
      simp [jcrAssetExt, hinc, hmem]
  · intro hdot
    have hinc : includesChar '.' u.pathname = true :=
      (includesChar_iff _ _).mpr hdot
    constructor
    · have hchunk := getLastD_memStr (splitOnChar '.' u.pathname) []
        (splitOnChar_ne_nil '.' u.pathname)
      exact splitOnChar_chunk_no_sep '.' u.pathname _ hchunk
    · have hsuf := splitOnChar_getLastD_suffix '.' u.pathname hdot
      simpa [jcrAssetExt, hinc] using hsuf
  · intro hdot hninf
    have hinc : includesChar '.' u.pathname = true :=
      (includesChar_iff _ _).mpr hdot
    have hne : jcrAssetExt u.pathname ≠ [] := by
      simp [jcrAssetExt, hinc]
    have hsuf : jcrAssetExt u.pathname <:+ u.pathname := by
      have := splitOnChar_getLastD_suffix '.' u.pathname hdot
      simpa [jcrAssetExt, hinc] using this
    obtain ⟨a0, ha0⟩ := hsuf
    obtain ⟨r, hgo⟩ :=
      removeFirst_go_complete (jcrAssetExt u.pathname) a0 [] hne
    have hshape : a0 ++ jcrAssetExt u.pathname ++ [] = u.pathname := by
      rw [List.append_nil, ha0]
    rw [hshape] at hgo
    obtain ⟨a, b, hs, hr⟩ := removeFirst_go_sound _ _ _ hgo
    have hb : b = [] := by
      by_contra hb
      apply hninf
      refine ⟨a, b.dropLast, ?_⟩
      have hd : u.pathname.dropLast =
          a ++ jcrAssetExt u.pathname ++ b.dropLast := by
        nth_rewrite 1 [hs]
        exact dropLast_append_ne (a ++ jcrAssetExt u.pathname) b hb
      rw [hd]
    subst hb
    have hbase : jcrAssetBase u.pathname = r := by
      unfold jcrAssetBase removeFirst
      rw [if_neg hne, hgo]
    rw [List.append_nil] at hs hr
    rw [hbase, hr]
    exact hs.symm

/-- Witness for the amended C5 at the path `/img/b.png`, whose extension
occurs only at the end. -/
theorem C5_split_witness :
    ('.' ∈ str "/img/b.png") ∧
    (¬ jcrAssetExt (str "/img/b.png") <:+: (str "/img/b.png").dropLast) ∧
    jcrAssetBase (str "/img/b.png") ++ jcrAssetExt (str "/img/b.png") =
      str "/img/b.png" :=
  ⟨by decide, by decide,
    (C5_split { origin := [], pathname := str "/img/b.png", params := [] }).2.2
      (by decide) (by decide)⟩

/-- Claim C6, counterexample: the asset URLs `/media/a?ab=c` and
`/media/a?a=bc` have the same path and different query strings, yet fold
to the same `_abc` path suffix and so map to the same canonical repository
path. -/
theorem C6_counterexample :
    getJcrAssetPath none
      { origin := str "https://h", pathname := str "/media/a",
        params := [(str "ab", str "c")] }
      (str "https://github.com/org/repo") =
    getJcrAssetPath none
      { origin := str "https://h", pathname := str "/media/a",
        params := [(str "a", str "bc")] }
      (str "https://github.com/org/repo") ∧
    ([(str "ab", str "c")] : List (Str × Str)) ≠ [(str "a", str "bc")] := by
  decide

/-- Claim C6, amended: two asset URLs with the same path (not landing in
the `/content/dam/` replacement branch) map to distinct canonical paths
whenever their folded `_<key><value>` query suffixes differ; collisions
remain possible when distinct query strings fold to the same suffix. -/
theorem C6_distinct_suffixes (custom : Option Str) (projectUrl : Str)
    (u1 u2 : URLm)
    (hpath : u1.pathname = u2.pathname)
    (hdam : (str "/content/dam/").isPrefixOf (jcrAssetBase u1.pathname) = false)
    (hsuf : querySuffix u1.params ≠ querySuffix u2.params) :
    getJcrAssetPath custom u1 projectUrl ≠ getJcrAssetPath custom u2 projectUrl := by
  intro heq
  unfold getJcrAssetPath at heq
  rw [← hpath] at heq
  simp only [hdam, Bool.false_eq_true, if_false] at heq
  simp only [List.append_assoc] at heq
  have h1 := List.append_cancel_left heq
  have h2 := List.append_cancel_left h1
  have h3 := List.append_cancel_left h2
  exact hsuf (List.append_cancel_right h3)

/-- Witness for the amended C6: same path, suffixes `_w1` and `_w2`. -/
theorem C6_distinct_suffixes_witness :
    ((str "/media/a" : Str) = str "/media/a") ∧
    ((str "/content/dam/").isPrefixOf (jcrAssetBase (str "/media/a")) = false) ∧
    (querySuffix [(str "w", str "1")] ≠ querySuffix [(str "w", str "2")]) ∧
    getJcrAssetPath none
      { origin := str "https://h", pathname := str "/media/a",
        params := [(str "w", str "1")] } (str "https://github.com/org/repo") ≠
    getJcrAssetPath none
      { origin := str "https://h", pathname := str "/media/a",
        params := [(str "w", str "2")] } (str "https://github.com/org/repo") :=
  ⟨rfl, by decide, by decide,
    C6_distinct_suffixes none (str "https://github.com/org/repo") _ _
      rfl (by decide) (by decide)⟩

/-- Claim C7: every generated page path starts with `/content/<siteName>`
and every generated asset path starts with `/content/dam/<siteName>`,
where the site name is the override constant when configured (and truthy)
and otherwise the second path segment of the project URL. -/
theorem C7_namespace_containment (custom : Option Str) (projectUrl path : Str)
    (u : URLm) :
    (str "/content/" ++ getSiteName custom projectUrl <+:
      getJcrPagePath custom path projectUrl) ∧
    (str "/content/dam/" ++ getSiteName custom projectUrl <+:
      getJcrAssetPath custom u projectUrl) :=
  ⟨pagePath_starts custom path projectUrl, assetPath_starts custom u projectUrl⟩

/-- Claim C8: any asset collection produced by `getJcrAssets` from an
empty cache has pairwise distinct `jcrPath`s — assets are deduplicated by
`jcrPath` before being pushed. -/
theorem C8_asset_dedup (custom : Option Str) (oracle : Str → FetchOutcome)
    (pages : List InPage) (projectUrl : Str) (st : BuildSt)
    (hempty : st.jcrAssetsCache = [])
    (as : List Asset) (st' : BuildSt)
    (hrun : getJcrAssetsB custom oracle pages projectUrl st = (Except.ok as, st')) :
    List.Pairwise (fun a b => a.jcrPath ≠ b.jcrPath) as := by
  unfold getJcrAssetsB at hrun
  rw [hempty] at hrun
  simp only [List.isEmpty_nil, if_true] at hrun
  obtain ⟨_, st1, _, hrest⟩ := bindB_eq_ok _ _ _ _ _ hrun
  obtain ⟨jp, st2, _, hrest2⟩ := bindB_eq_ok _ _ _ _ _ hrest
  obtain ⟨scanned, st3, hscan, hset⟩ := bindB_eq_ok _ _ _ _ _ hrest2
  rw [scanPagesB_run] at hscan
  have hval : scanned = scanPagesVal custom projectUrl [] jp := by
    have := congrArg Prod.fst hscan
    simpa using this.symm
  have hres : as = scanned := by
    have := congrArg Prod.fst hset
    simpa using this.symm
  rw [hres, hval]
  exact scanPagesVal_pairwise custom projectUrl jp [] List.Pairwise.nil

/-- Witness for C8 on a concrete (empty) build. -/
theorem C8_asset_dedup_witness :
    List.Pairwise (fun a b : Asset => a.jcrPath ≠ b.jcrPath) [] :=
  C8_asset_dedup none (fun _ => FetchOutcome.networkError) [] (str "https://g/o/r")
    initSt rfl []
    { jcrPagesCache := [], jcrAssetsCache := [], parseLog := [],
      resolveLog := [], fetchLog := [], writes := [],
      pagesComputes := 1, assetScans := 1 }
    rfl

/-- Claim C9: a package build invoked with zero input pages returns
immediately: no cache reset, no writes, no error — the state is returned
unchanged with a successful unit result. -/
theorem C9_zero_pages_noop (custom : Option Str) (oracle : Str → FetchOutcome)
    (projectUrl : Str) (st : BuildSt) :
    createJcrPackageB custom oracle [] projectUrl st = (Except.ok (), st) := rfl

/-- Claim C10: for an empty or missing reference string the asset
classifier returns `null`, and `getProcessedFileRef` unconditionally reads
`processedFileRef` off that result, so the call raises a `TypeError`
instead of skipping the reference. -/
theorem C10_empty_ref_throws (custom : Option Str) (fr : Option Str)
    (pageUrl projectUrl : Str) (h : fr = none ∨ fr = some []) :
    getAsset custom fr pageUrl projectUrl = none ∧
    getProcessedFileRef custom fr pageUrl projectUrl =
      Except.error JsError.typeError := by
  rcases h with rfl | rfl
  · exact ⟨rfl, rfl⟩
  · constructor
    · simp [getAsset, getAssetStr]
    · simp [getProcessedFileRef, getAsset, getAssetStr]

/-- Witness for C10 at the empty reference. -/
theorem C10_empty_ref_throws_witness :
    (some ([] : Str) = none ∨ some ([] : Str) = some ([] : Str)) ∧
    getProcessedFileRef none (some []) (str "https://h/p") (str "https://g/o/r") =
      Except.error JsError.typeError :=
  ⟨Or.inr rfl,
    (C10_empty_ref_throws none (some []) (str "https://h/p") (str "https://g/o/r")
      (Or.inr rfl)).2⟩

theorem fetchAssetDataP_ok (a : Asset) (outcome : FetchOutcome)
    (h : outcome ≠ FetchOutcome.networkError) :
    ∃ a', fetchAssetDataP a outcome = Except.ok a' := by
  unfold fetchAssetDataP
  cases hu : a.url with
  | none => exact ⟨a, rfl⟩
  | some u =>
    cases outcome with
    | success contentType body => exact ⟨_, rfl⟩
    | httpError s => exact ⟨_, rfl⟩
    | networkError => exact absurd rfl h

theorem run_fetchAssetDataB (oracle : Str → FetchOutcome) (asset : Asset)
    (st : BuildSt) (hnet : ∀ href, oracle href ≠ FetchOutcome.networkError) :
    ∃ a', fetchAssetDataB oracle asset st =
      (Except.ok a',
       { st with fetchLog := st.fetchLog ++ assetFetchKeys asset }) := by
  unfold fetchAssetDataB assetFetchKeys
  cases hu : asset.url with
  | none => exact ⟨asset, by simp⟩
  | some u =>
    obtain ⟨a', ha'⟩ := fetchAssetDataP_ok asset (oracle (urlHref u))
      (hnet (urlHref u))
    refine ⟨a', ?_⟩
    simp [ha']

theorem bindB_ok {α β : Type} {m : BuildM α} {f : α → BuildM β}
    {st st1 : BuildSt} {a : α} (h : m st = (Except.ok a, st1)) :
    bindB m f st = f a st1 := by
  unfold bindB
  rw [h]

theorem getAssetStr_isSome (custom : Option Str) (ref : Str)
    (pageUrl projectUrl : Str) (h : ref ≠ []) :
    ∃ a, getAssetStr custom ref pageUrl projectUrl = some a := by
  simp only [getAssetStr, if_neg h]
  repeat' split
  all_goals exact ⟨_, rfl⟩

theorem run_processRef (custom : Option Str) (oracle : Str → FetchOutcome)
    (pageUrl projectUrl : Str) (ref : Str) (st : BuildSt)
    (href : ref ≠ []) (hnet : ∀ href, oracle href ≠ FetchOutcome.networkError) :
    processRef custom oracle pageUrl projectUrl ref st =
      (Except.ok (processedRefVal custom pageUrl projectUrl ref),
       { st with resolveLog := st.resolveLog ++ refResolveList ref,
                 fetchLog := st.fetchLog ++
                   refFetchList custom pageUrl projectUrl ref }) := by
  obtain ⟨a, ha⟩ := getAssetStr_isSome custom ref pageUrl projectUrl href
  have hget : getAsset custom (some ref) pageUrl projectUrl = some a := ha
  unfold processRef getProcessedFileRefB
  have hstep1 : bindB (getAssetB custom (some ref) pageUrl projectUrl)
      (fun assetOpt => match assetOpt with
        | none => throwB
        | some asset => pureB asset.processedFileRef) st =
      (Except.ok a.processedFileRef,
       { st with resolveLog := st.resolveLog ++ [ref] }) := by
    rw [bindB_ok (show getAssetB custom (some ref) pageUrl projectUrl st =
      (Except.ok (some a), { st with resolveLog := st.resolveLog ++ [ref] }) by
        simp [getAssetB, hget])]
    simp [pureB]
  rw [bindB_ok hstep1]
  by_cases hhttp : (str "http").isPrefixOf ref = true
  · simp only [hhttp, if_true]
    rw [bindB_ok (show getAssetB custom (some ref) pageUrl projectUrl
        { st with resolveLog := st.resolveLog ++ [ref] } =
      (Except.ok (some a),
       { st with resolveLog := (st.resolveLog ++ [ref]) ++ [ref] }) by
        simp [getAssetB, hget])]
    by_cases hadd : a.add = true
    · simp only [hadd, if_true, pureB]
      simp [processedRefVal, hget, refResolveList, refFetchList, hhttp, hadd]
    · have hadd' : a.add = false := by
        cases hx : a.add
        · rfl
        · exact absurd hx hadd
      simp only [hadd', Bool.false_eq_true, if_false]
      obtain ⟨a', hfetch⟩ := run_fetchAssetDataB oracle a
        { st with resolveLog := (st.resolveLog ++ [ref]) ++ [ref] } hnet
      rw [bindB_ok hfetch]
      simp [processedRefVal, hget, refResolveList, refFetchList, hhttp, hadd',
        assetFetchKeys, pureB]
  · simp only [hhttp, Bool.false_eq_true, if_false, pureB]
    simp [processedRefVal, hget, refResolveList, refFetchList, hhttp]

theorem run_mapB_refs (custom : Option Str) (oracle : Str → FetchOutcome)
    (pageUrl projectUrl : Str)
    (hnet : ∀ href, oracle href ≠ FetchOutcome.networkError) :
    ∀ (refs : List Str), (∀ r ∈ refs, r ≠ []) → ∀ st,
    mapB (processRef custom oracle pageUrl projectUrl) refs st =
      (Except.ok (refs.map (processedRefVal custom pageUrl projectUrl)),
       { st with
         resolveLog := st.resolveLog ++ refs.flatMap refResolveList,
         fetchLog := st.fetchLog ++
           refs.flatMap (refFetchList custom pageUrl projectUrl) }) := by
  intro refs
  induction refs with
  | nil => intro _ st; simp [mapB, pureB]
  | cons r rest ih =>
    intro hne st
    simp only [mapB]
    rw [bindB_ok (run_processRef custom oracle pageUrl projectUrl r st
      (hne r (by simp)) hnet)]
    rw [bindB_ok (ih (fun x hx => hne x (List.mem_cons_of_mem _ hx)) _)]
    simp [pureB, List.append_assoc]

theorem run_getProcessedJcrB (custom : Option Str) (oracle : Str → FetchOutcome)
    (xml : PageDoc) (pageUrl projectUrl : Str) (st : BuildSt)
    (hne : ∀ r ∈ xml.refs, r ≠ [])
    (hnet : ∀ href, oracle href ≠ FetchOutcome.networkError) :
    getProcessedJcrB custom oracle xml pageUrl projectUrl st =
      (Except.ok { xml with
         refs := xml.refs.map (processedRefVal custom pageUrl projectUrl) },
       { st with
         parseLog := st.parseLog ++ [pageUrl],
         resolveLog := st.resolveLog ++ xml.refs.flatMap refResolveList,
         fetchLog := st.fetchLog ++
           xml.refs.flatMap (refFetchList custom pageUrl projectUrl) }) := by
  unfold getProcessedJcrB
  rw [bindB_ok (show recordParse pageUrl st =
    (Except.ok (), { st with parseLog := st.parseLog ++ [pageUrl] }) from rfl)]
  rw [bindB_ok (run_mapB_refs custom oracle pageUrl projectUrl hnet xml.refs hne _)]
  simp [pureB]

theorem run_buildJcrPage (custom : Option Str) (oracle : Str → FetchOutcome)
    (projectUrl : Str) (page : InPage) (st : BuildSt)
    (hne : ∀ r ∈ page.data.refs, r ≠ [])
    (hnet : ∀ href, oracle href ≠ FetchOutcome.networkError) :
    buildJcrPage custom oracle projectUrl page st =
      (Except.ok (jcrPageVal custom projectUrl page),
       { st with
         parseLog := st.parseLog ++ [page.url, page.url, page.url],
         resolveLog := st.resolveLog ++ page.data.refs.flatMap refResolveList,
         fetchLog := st.fetchLog ++
           page.data.refs.flatMap (refFetchList custom page.url projectUrl) }) := by
  unfold buildJcrPage
  rw [bindB_ok (show getPagePropertiesB page.data page.url st =
    (Except.ok page.data.contentProps,
     { st with parseLog := st.parseLog ++ [page.url] }) from rfl)]
  rw [bindB_ok (show getPageContentChildrenB page.data page.url
      { st with parseLog := st.parseLog ++ [page.url] } =
    (Except.ok page.data.contentChildren,
     { st with parseLog := (st.parseLog ++ [page.url]) ++ [page.url] }) from rfl)]
  rw [bindB_ok (run_getProcessedJcrB custom oracle page.data page.url projectUrl
    _ hne hnet)]
  simp [pureB, jcrPageVal, List.append_assoc]

theorem run_mapB_pages (custom : Option Str) (oracle : Str → FetchOutcome)
    (projectUrl : Str)
    (hnet : ∀ href, oracle href ≠ FetchOutcome.networkError) :
    ∀ (pages : List InPage), (∀ p ∈ pages, ∀ r ∈ p.data.refs, r ≠ []) → ∀ st,
    mapB (buildJcrPage custom oracle projectUrl) pages st =
      (Except.ok (pages.map (jcrPageVal custom projectUrl)),
       { st with
         parseLog := st.parseLog ++
           pages.flatMap (fun p => [p.url, p.url, p.url]),
         resolveLog := st.resolveLog ++
           pages.flatMap (fun p => p.data.refs.flatMap refResolveList),
         fetchLog := st.fetchLog ++
           pages.flatMap (fun p =>
             p.data.refs.flatMap (refFetchList custom p.url projectUrl)) }) := by
  intro pages
  induction pages with
  | nil => intro _ st; simp [mapB, pureB]
  | cons p rest ih =>
    intro hne st
    simp only [mapB]
    rw [bindB_ok (run_buildJcrPage custom oracle projectUrl p st
      (hne p (by simp)) hnet)]
    rw [bindB_ok (ih (fun x hx => hne x (List.mem_cons_of_mem _ hx)) _)]
    simp [pureB, List.append_assoc]

theorem run_getJcrPagesB_compute (custom : Option Str)
    (oracle : Str → FetchOutcome) (pages : List InPage) (projectUrl : Str)
    (st : BuildSt) (hc : st.jcrPagesCache = [])
    (hne : ∀ p ∈ pages, ∀ r ∈ p.data.refs, r ≠ [])
    (hnet : ∀ href, oracle href ≠ FetchOutcome.networkError) :
    getJcrPagesB custom oracle pages projectUrl st =
      (Except.ok (pages.map (jcrPageVal custom projectUrl)),
       { st with
         jcrPagesCache := pages.map (jcrPageVal custom projectUrl),
         pagesComputes := st.pagesComputes + 1,
         parseLog := st.parseLog ++
           pages.flatMap (fun p => [p.url, p.url, p.url]),
         resolveLog := st.resolveLog ++
           pages.flatMap (fun p => p.data.refs.flatMap refResolveList),
         fetchLog := st.fetchLog ++
           pages.flatMap (fun p =>
             p.data.refs.flatMap (refFetchList custom p.url projectUrl)) }) := by
  unfold getJcrPagesB
  rw [hc]
  simp only [List.isEmpty_nil, if_true]
  show bindB (mapB (buildJcrPage custom oracle projectUrl) pages)
    (fun ps st2 => (Except.ok ps, { st2 with jcrPagesCache := ps }))
    { st with pagesComputes := st.pagesComputes + 1 } = _
  rw [bindB_ok (run_mapB_pages custom oracle projectUrl hnet pages hne _)]

theorem run_getJcrPagesB_hit (custom : Option Str)
    (oracle : Str → FetchOutcome) (pages : List InPage) (projectUrl : Str)
    (st : BuildSt) (hc : st.jcrPagesCache ≠ []) :
    getJcrPagesB custom oracle pages projectUrl st =
      (Except.ok st.jcrPagesCache, st) := by
  unfold getJcrPagesB
  have hfalse : st.jcrPagesCache.isEmpty = false := by
    cases hx : st.jcrPagesCache with
    | nil => exact absurd hx hc
    | cons a l => rfl
  rw [hfalse]
  simp

theorem run_writePairB (pfx path : Str) (st : BuildSt) :
    writePairB pfx path st =
      (Except.ok (), { st with writes := st.writes ++ pagePairWrites pfx path }) :=
  rfl

theorem run_forEach_addPageB {α : Type} (pfx : Str) (f : α → Str) :
    ∀ (l : List α) (st : BuildSt),
    forEachB (fun x => addPageB pfx (f x)) l st =
      (Except.ok (),
       { st with writes := st.writes ++
          l.flatMap (fun x => pagePairWrites pfx (f x)) }) := by
  intro l
  induction l with
  | nil => intro st; simp [forEachB, pureB]
  | cons x rest ih =>
    intro st
    simp only [forEachB]
    rw [bindB_ok (show addPageB pfx (f x) st = (Except.ok (),
      { st with writes := st.writes ++ pagePairWrites pfx (f x) }) from rfl)]
    rw [ih]
    simp [List.append_assoc]

theorem run_addAssetB (oracle : Str → FetchOutcome) (pfx : Str) (asset : Asset)
    (st : BuildSt) (hnet : ∀ href, oracle href ≠ FetchOutcome.networkError) :
    addAssetB oracle pfx asset st =
      (Except.ok (),
       { st with fetchLog := st.fetchLog ++ assetFetchKeys asset,
                 writes := st.writes ++ assetWrites pfx asset }) := by
  unfold addAssetB
  obtain ⟨a', hfetch⟩ := run_fetchAssetDataB oracle asset st hnet
  rw [bindB_ok hfetch]
  rw [bindB_ok (run_writePairB pfx _ _)]
  rw [run_writePairB]
  simp [assetWrites, assetJcrStr, List.append_assoc]

theorem run_forEach_addAssetB (oracle : Str → FetchOutcome) (pfx : Str)
    (hnet : ∀ href, oracle href ≠ FetchOutcome.networkError) :
    ∀ (l : List Asset) (st : BuildSt),
    forEachB (addAssetB oracle pfx) l st =
      (Except.ok (),
       { st with fetchLog := st.fetchLog ++ l.flatMap assetFetchKeys,
                 writes := st.writes ++ l.flatMap (assetWrites pfx) }) := by
  intro l
  induction l with
  | nil => intro st; simp [forEachB, pureB]
  | cons a rest ih =>
    intro st
    simp only [forEachB]
    rw [bindB_ok (run_addAssetB oracle pfx a st hnet)]
    rw [ih]
    simp [List.append_assoc]

theorem run_getJcrAssetsB_scan (custom : Option Str)
    (oracle : Str → FetchOutcome) (pages : List InPage) (projectUrl : Str)
    (st : BuildSt) (hc : st.jcrAssetsCache = []) (hp : st.jcrPagesCache ≠ []) :
    getJcrAssetsB custom oracle pages projectUrl st =
      (Except.ok (scanPagesVal custom projectUrl [] st.jcrPagesCache),
       { st with
         assetScans := st.assetScans + 1,
         parseLog := st.parseLog ++ st.jcrPagesCache.map (fun p => p.url),
         resolveLog := st.resolveLog ++
           st.jcrPagesCache.flatMap (fun p => p.sourceXml.refs),
         jcrAssetsCache := scanPagesVal custom projectUrl [] st.jcrPagesCache }) := by
  unfold getJcrAssetsB
  rw [hc]
  simp only [List.isEmpty_nil, if_true]
  show bindB (getJcrPagesB custom oracle pages projectUrl)
    (fun jp => bindB (scanPagesB custom projectUrl [] jp)
      (fun as st2 => (Except.ok as, { st2 with jcrAssetsCache := as })))
    { st with assetScans := st.assetScans + 1 } = _
  rw [bindB_ok (run_getJcrPagesB_hit custom oracle pages projectUrl _
    (by simpa using hp))]
  rw [bindB_ok (scanPagesB_run custom projectUrl _ [] _)]

theorem run_getJcrAssetsB_hit (custom : Option Str)
    (oracle : Str → FetchOutcome) (pages : List InPage) (projectUrl : Str)
    (st : BuildSt) (hc : st.jcrAssetsCache ≠ []) :
    getJcrAssetsB custom oracle pages projectUrl st =
      (Except.ok st.jcrAssetsCache, st) := by
  unfold getJcrAssetsB
  have hfalse : st.jcrAssetsCache.isEmpty = false := by
    cases hx : st.jcrAssetsCache with
    | nil => exact absurd hx hc
    | cons a l => rfl
  rw [hfalse]
  simp

theorem run_getJcrAssetPathsB_hit (custom : Option Str)
    (oracle : Str → FetchOutcome) (pages : List InPage) (projectUrl : Str)
    (st : BuildSt) (ha : st.jcrAssetsCache ≠ []) :
    getJcrAssetPathsB custom oracle pages projectUrl st =
      (Except.ok (getResourcePathsAssets st.jcrAssetsCache), st) := by
  unfold getJcrAssetPathsB
  rw [bindB_ok (run_getJcrAssetsB_hit custom oracle pages projectUrl st ha)]
  rfl

theorem run_getFilterXmlB_hit (custom : Option Str)
    (oracle : Str → FetchOutcome) (pages : List InPage) (projectUrl : Str)
    (st : BuildSt) (hp : st.jcrPagesCache ≠ []) (ha : st.jcrAssetsCache ≠ []) :
    getFilterXmlB custom oracle pages projectUrl st =
      (Except.ok (buildFilterXml st.jcrPagesCache
        (getResourcePathsAssets st.jcrAssetsCache)), st) := by
  unfold getFilterXmlB
  rw [bindB_ok (run_getJcrPagesB_hit custom oracle pages projectUrl st hp)]
  rw [bindB_ok (run_getJcrAssetPathsB_hit custom oracle pages projectUrl st ha)]
  rfl

theorem run_getFilterXmlB_rescan (custom : Option Str)
    (oracle : Str → FetchOutcome) (pages : List InPage) (projectUrl : Str)
    (st : BuildSt) (hp : st.jcrPagesCache ≠ []) (ha : st.jcrAssetsCache = []) :
    getFilterXmlB custom oracle pages projectUrl st =
      (Except.ok (buildFilterXml st.jcrPagesCache
        (getResourcePathsAssets (scanPagesVal custom projectUrl [] st.jcrPagesCache))),
       { st with
         assetScans := st.assetScans + 1,
         parseLog := st.parseLog ++ st.jcrPagesCache.map (fun p => p.url),
         resolveLog := st.resolveLog ++
           st.jcrPagesCache.flatMap (fun p => p.sourceXml.refs),
         jcrAssetsCache := scanPagesVal custom projectUrl [] st.jcrPagesCache }) := by
  unfold getFilterXmlB
  rw [bindB_ok (run_getJcrPagesB_hit custom oracle pages projectUrl st hp)]
  have hpaths : getJcrAssetPathsB custom oracle pages projectUrl st =
      (Except.ok (getResourcePathsAssets
        (scanPagesVal custom projectUrl [] st.jcrPagesCache)),
       { st with
         assetScans := st.assetScans + 1,
         parseLog := st.parseLog ++ st.jcrPagesCache.map (fun p => p.url),
         resolveLog := st.resolveLog ++
           st.jcrPagesCache.flatMap (fun p => p.sourceXml.refs),
         jcrAssetsCache := scanPagesVal custom projectUrl [] st.jcrPagesCache }) := by
    unfold getJcrAssetPathsB
    rw [bindB_ok (run_getJcrAssetsB_scan custom oracle pages projectUrl st ha hp)]
    rfl
  rw [bindB_ok hpaths]
  rfl

theorem map_jcrPageVal_url (custom : Option Str) (projectUrl : Str) :
    ∀ pages : List InPage,
    (pages.map (jcrPageVal custom projectUrl)).map (fun p => p.url)
      = pages.map (fun p => p.url)
  | [] => rfl
  | p :: ps => by
    simp only [List.map_cons, jcrPageVal,
      map_jcrPageVal_url custom projectUrl ps]

theorem map_jcrPageVal_refs (custom : Option Str) (projectUrl : Str) :
    ∀ pages : List InPage,
    (pages.map (jcrPageVal custom projectUrl)).flatMap
        (fun p => p.sourceXml.refs)
      = pages.flatMap (fun p => p.data.refs)
  | [] => rfl
  | p :: ps => by
    simp only [List.map_cons, List.flatMap_cons, jcrPageVal,
      map_jcrPageVal_refs custom projectUrl ps]

/-- Full symbolic execution of a successful package build: the final state
is reached with exactly one page-collection computation, one asset scan
(two when the scan finds no assets), three parses of each page by
`getJcrPages` plus one per scan, and one `getAsset` resolution per
reference while rewriting plus one per scan. -/
theorem run_createJcrPackageB (custom : Option Str) (oracle : Str → FetchOutcome)
    (pages : List InPage) (projectUrl : Str) (st : BuildSt)
    (hne : pages ≠ [])
    (hrefs : ∀ p ∈ pages, ∀ r ∈ p.data.refs, r ≠ [])
    (hnet : ∀ href, oracle href ≠ FetchOutcome.networkError) :
    ∃ st', createJcrPackageB custom oracle pages projectUrl st =
        (Except.ok (), st') ∧
      st'.jcrPagesCache = pages.map (jcrPageVal custom projectUrl) ∧
      st'.jcrAssetsCache =
        scanPagesVal custom projectUrl []
          (pages.map (jcrPageVal custom projectUrl)) ∧
      st'.pagesComputes = st.pagesComputes + 1 ∧
      st'.assetScans = st.assetScans +
        (if scanPagesVal custom projectUrl []
            (pages.map (jcrPageVal custom projectUrl)) = [] then 2 else 1) ∧
      st'.parseLog = st.parseLog ++
        pages.flatMap (fun p => [p.url, p.url, p.url]) ++
        pages.map (fun p => p.url) ++
        (if scanPagesVal custom projectUrl []
            (pages.map (jcrPageVal custom projectUrl)) = [] then
          pages.map (fun p => p.url) else []) ∧
      st'.resolveLog = st.resolveLog ++
        pages.flatMap (fun p => p.data.refs.flatMap refResolveList) ++
        pages.flatMap (fun p => p.data.refs) ++
        (if scanPagesVal custom projectUrl []
            (pages.map (jcrPageVal custom projectUrl)) = [] then
          pages.flatMap (fun p => p.data.refs) else []) ∧
      st'.fetchLog = st.fetchLog ++
        pages.flatMap (fun p =>
          p.data.refs.flatMap (refFetchList custom p.url projectUrl)) ++
        (scanPagesVal custom projectUrl []
          (pages.map (jcrPageVal custom projectUrl))).flatMap
            assetFetchKeys := by
  have hjp : pages.map (jcrPageVal custom projectUrl) ≠ [] := by
    cases pages with
    | nil => exact absurd rfl hne
    | cons a l => simp
  have hfalse : pages.isEmpty = false := by
    cases pages with
    | nil => exact absurd rfl hne
    | cons a l => rfl
  by_cases hAS : scanPagesVal custom projectUrl []
      (pages.map (jcrPageVal custom projectUrl)) = []
  · refine ⟨{ st with
        jcrPagesCache := pages.map (jcrPageVal custom projectUrl),
        jcrAssetsCache := scanPagesVal custom projectUrl []
          (pages.map (jcrPageVal custom projectUrl)),
        parseLog := st.parseLog ++
          pages.flatMap (fun p => [p.url, p.url, p.url]) ++
          (pages.map (jcrPageVal custom projectUrl)).map (fun p => p.url) ++
          (pages.map (jcrPageVal custom projectUrl)).map (fun p => p.url),
        resolveLog := st.resolveLog ++
          pages.flatMap (fun p => p.data.refs.flatMap refResolveList) ++
          (pages.map (jcrPageVal custom projectUrl)).flatMap
            (fun p => p.sourceXml.refs) ++
          (pages.map (jcrPageVal custom projectUrl)).flatMap
            (fun p => p.sourceXml.refs),
        fetchLog := st.fetchLog ++
          pages.flatMap (fun p =>
            p.data.refs.flatMap (refFetchList custom p.url projectUrl)) ++
          (scanPagesVal custom projectUrl []
            (pages.map (jcrPageVal custom projectUrl))).flatMap
            assetFetchKeys,
        writes := st.writes ++
          (pages.map (jcrPageVal custom projectUrl)).flatMap
            (fun p => pagePairWrites (str "jcr") p.contentXmlPath) ++
          (getEmptyAncestorPages
            (pages.map (jcrPageVal custom projectUrl))).flatMap
            (fun a => pagePairWrites (str "jcr") a.contentXmlPath) ++
          (scanPagesVal custom projectUrl []
            (pages.map (jcrPageVal custom projectUrl))).flatMap
            (assetWrites (str "jcr")) ++
          pagePairWrites (str "jcr") (str "META-INF/vault/filter.xml") ++
          pagePairWrites (str "jcr") (str "META-INF/vault/properties.xml") ++
          [WriteEvt.fsFile (str "jcr" ++ slash ::
            (getPackageName custom pages projectUrl ++ str ".zip"))],
        pagesComputes := st.pagesComputes + 1,
        assetScans := st.assetScans + 1 + 1 }, ?_, ?_, ?_, ?_, ?_, ?_, ?_, ?_⟩
    · simp only [createJcrPackageB, hfalse, Bool.false_eq_true, if_false]
      rw [bindB_ok (show initB st = (Except.ok (),
        { st with jcrPagesCache := [], jcrAssetsCache := [] }) from rfl)]
      rw [bindB_ok (run_getJcrPagesB_compute custom oracle pages projectUrl
        { st with jcrPagesCache := [], jcrAssetsCache := [] } rfl hrefs hnet)]
      rw [bindB_ok (run_forEach_addPageB (str "jcr")
        (fun p : JcrPage => p.contentXmlPath) _ _)]
      rw [bindB_ok (run_forEach_addPageB (str "jcr")
        (fun a : AncestorPage => a.contentXmlPath) _ _)]
      rw [bindB_ok (run_getJcrAssetsB_scan custom oracle pages projectUrl _
        (by rfl) (by exact hjp))]
      rw [bindB_ok (run_forEach_addAssetB oracle (str "jcr") hnet _ _)]
      rw [bindB_ok (run_getFilterXmlB_rescan custom oracle pages projectUrl _
        (by exact hjp) (by exact hAS))]
      rw [bindB_ok (run_writePairB (str "jcr")
        (str "META-INF/vault/filter.xml") _)]
      rw [bindB_ok (run_writePairB (str "jcr")
        (str "META-INF/vault/properties.xml") _)]
    · rfl
    · rfl
    · rfl
    · rw [if_pos hAS]
    · rw [if_pos hAS, map_jcrPageVal_url]
    · rw [if_pos hAS, map_jcrPageVal_refs]
    · rfl
  · refine ⟨{ st with
        jcrPagesCache := pages.map (jcrPageVal custom projectUrl),
        jcrAssetsCache := scanPagesVal custom projectUrl []
          (pages.map (jcrPageVal custom projectUrl)),
        parseLog := st.parseLog ++
          pages.flatMap (fun p => [p.url, p.url, p.url]) ++
          (pages.map (jcrPageVal custom projectUrl)).map (fun p => p.url),
        resolveLog := st.resolveLog ++
          pages.flatMap (fun p => p.data.refs.flatMap refResolveList) ++
          (pages.map (jcrPageVal custom projectUrl)).flatMap
            (fun p => p.sourceXml.refs),
        fetchLog := st.fetchLog ++
          pages.flatMap (fun p =>
            p.data.refs.flatMap (refFetchList custom p.url projectUrl)) ++
          (scanPagesVal custom projectUrl []
            (pages.map (jcrPageVal custom projectUrl))).flatMap
            assetFetchKeys,
        writes := st.writes ++
          (pages.map (jcrPageVal custom projectUrl)).flatMap
            (fun p => pagePairWrites (str "jcr") p.contentXmlPath) ++
          (getEmptyAncestorPages
            (pages.map (jcrPageVal custom projectUrl))).flatMap
            (fun a => pagePairWrites (str "jcr") a.contentXmlPath) ++
          (scanPagesVal custom projectUrl []
            (pages.map (jcrPageVal custom projectUrl))).flatMap
            (assetWrites (str "jcr")) ++
          pagePairWrites (str "jcr") (str "META-INF/vault/filter.xml") ++
          pagePairWrites (str "jcr") (str "META-INF/vault/properties.xml") ++
          [WriteEvt.fsFile (str "jcr" ++ slash ::
            (getPackageName custom pages projectUrl ++ str ".zip"))],
        pagesComputes := st.pagesComputes + 1,
        assetScans := st.assetScans + 1 }, ?_, ?_, ?_, ?_, ?_, ?_, ?_, ?_⟩
    · simp only [createJcrPackageB, hfalse, Bool.false_eq_true, if_false]
      rw [bindB_ok (show initB st = (Except.ok (),
        { st with jcrPagesCache := [], jcrAssetsCache := [] }) from rfl)]
      rw [bindB_ok (run_getJcrPagesB_compute custom oracle pages projectUrl
        { st with jcrPagesCache := [], jcrAssetsCache := [] } rfl hrefs hnet)]
      rw [bindB_ok (run_forEach_addPageB (str "jcr")
        (fun p : JcrPage => p.contentXmlPath) _ _)]
      rw [bindB_ok (run_forEach_addPageB (str "jcr")
        (fun a : AncestorPage => a.contentXmlPath) _ _)]
      rw [bindB_ok (run_getJcrAssetsB_scan custom oracle pages projectUrl _
        (by rfl) (by exact hjp))]
      rw [bindB_ok (run_forEach_addAssetB oracle (str "jcr") hnet _ _)]
      rw [bindB_ok (run_getFilterXmlB_hit custom oracle pages projectUrl _
        (by exact hjp) (by exact hAS))]
      rw [bindB_ok (run_writePairB (str "jcr")
        (str "META-INF/vault/filter.xml") _)]
      rw [bindB_ok (run_writePairB (str "jcr")
        (str "META-INF/vault/properties.xml") _)]
    · rfl
    · rfl
    · rfl
    · rw [if_neg hAS]
    · rw [if_neg hAS, List.append_nil, map_jcrPageVal_url]
    · rw [if_neg hAS, List.append_nil, map_jcrPageVal_refs]
    · rfl

/-- C4 (amended): the caches are reset at build start and each memoized
collection is computed exactly once per successful build — except that the
asset scan runs twice when it finds no assets, because the memoization
gate is emptiness of the cache.  Within the one computation, each input
page is parsed three times by `getJcrPages` (properties, content children
and reference rewriting) and once more per asset scan; each reference is
resolved (via `getAsset`) once while rewriting — twice for an `http(s)`
reference — plus once per asset scan; each collected asset is fetched
exactly once while being packaged. -/
theorem C4_build_trace (custom : Option Str) (oracle : Str → FetchOutcome)
    (pages : List InPage) (projectUrl : Str) (st : BuildSt)
    (hne : pages ≠ [])
    (hrefs : ∀ p ∈ pages, ∀ r ∈ p.data.refs, r ≠ [])
    (hnet : ∀ href, oracle href ≠ FetchOutcome.networkError) :
    ∃ st', createJcrPackageB custom oracle pages projectUrl st =
        (Except.ok (), st') ∧
      st'.jcrPagesCache = pages.map (jcrPageVal custom projectUrl) ∧
      st'.jcrAssetsCache =
        scanPagesVal custom projectUrl []
          (pages.map (jcrPageVal custom projectUrl)) ∧
      st'.pagesComputes = st.pagesComputes + 1 ∧
      st'.assetScans = st.assetScans +
        (if scanPagesVal custom projectUrl []
            (pages.map (jcrPageVal custom projectUrl)) = [] then 2 else 1) ∧
      st'.parseLog = st.parseLog ++
        pages.flatMap (fun p => [p.url, p.url, p.url]) ++
        pages.map (fun p => p.url) ++
        (if scanPagesVal custom projectUrl []
            (pages.map (jcrPageVal custom projectUrl)) = [] then
          pages.map (fun p => p.url) else []) ∧
      st'.resolveLog = st.resolveLog ++
        pages.flatMap (fun p => p.data.refs.flatMap refResolveList) ++
        pages.flatMap (fun p => p.data.refs) ++
        (if scanPagesVal custom projectUrl []
            (pages.map (jcrPageVal custom projectUrl)) = [] then
          pages.flatMap (fun p => p.data.refs) else []) ∧
      st'.fetchLog = st.fetchLog ++
        pages.flatMap (fun p =>
          p.data.refs.flatMap (refFetchList custom p.url projectUrl)) ++
        (scanPagesVal custom projectUrl []
          (pages.map (jcrPageVal custom projectUrl))).flatMap
            assetFetchKeys :=
  run_createJcrPackageB custom oracle pages projectUrl st hne hrefs hnet

/-- C4: the claim that "each input page is parsed once and each referenced
asset is resolved once per build" is false at a concrete input: in a
one-page build with one local image reference, the page markup is parsed
four times (three times by `getJcrPages` — properties, content children
and reference rewriting — and once more by the asset scan) and the
reference is resolved twice (once while rewriting, once by the scan). -/
theorem C4_counterexample :
    countStr (str "https://h/a/b")
        ((createJcrPackageB none oracleC4 [pageC4]
          (str "https://github.com/org/repo")) initSt).2.parseLog = 4 ∧
    (4 : Nat) ≠ 1 ∧
    countStr (str "/i.png")
        ((createJcrPackageB none oracleC4 [pageC4]
          (str "https://github.com/org/repo")) initSt).2.resolveLog = 2 ∧
    (2 : Nat) ≠ 1 := by
  obtain ⟨st', heq, h2, h3, h4, h5, h6, h7, h8⟩ :=
    run_createJcrPackageB none oracleC4 [pageC4]
      (str "https://github.com/org/repo") initSt
      (List.cons_ne_nil pageC4 [])
      (by decide)
      (fun href h => FetchOutcome.noConfusion h)
  rw [heq]
  refine ⟨?_, by decide, ?_, by decide⟩
  · show countStr (str "https://h/a/b") st'.parseLog = 4
    rw [h6]
    decide
  · show countStr (str "/i.png") st'.resolveLog = 2
    rw [h7]
    decide

/-- C4 witness: the amended trace theorem instantiated on the one-page
fixture with its single local image reference: the build succeeds, the page
collection is computed once, and the parse log follows the stated shape. -/
theorem C4_build_trace_witness :
    ∃ st', createJcrPackageB none oracleC4 [pageC4]
        (str "https://github.com/org/repo") initSt = (Except.ok (), st') ∧
      st'.pagesComputes = initSt.pagesComputes + 1 ∧
      st'.parseLog = initSt.parseLog ++
        [pageC4].flatMap (fun p => [p.url, p.url, p.url]) ++
        [pageC4].map (fun p => p.url) ++
        (if scanPagesVal none (str "https://github.com/org/repo") []
            ([pageC4].map (jcrPageVal none
              (str "https://github.com/org/repo"))) = [] then
          [pageC4].map (fun p => p.url) else []) := by
  obtain ⟨st', h1, h2, h3, h4, h5, h6, h7, h8⟩ :=
    C4_build_trace none oracleC4 [pageC4]
      (str "https://github.com/org/repo") initSt
      (List.cons_ne_nil pageC4 [])
      (by decide)
      (fun href h => FetchOutcome.noConfusion h)
  exact ⟨st', h1, h4, h6⟩
